import Mathlib

/-!
Verification of the authenticated request pipeline of the MovieReviewAp
repository (`src/service/api.ts`, `src/context/AuthContext.tsx`,
`src/utils/storage.ts`).

The interceptor installed by `api.interceptors.response.use` is modelled as a
small-step state machine under single-threaded cooperative concurrency: each
in-flight request that has received a 401 response is a process whose program
counter records the suspension point it is parked at (`await storage.getTokens`,
the refresh POST, `await storage.setTokens`, `await storage.clearTokens`, a
replayed request).  A schedule is a list of process indices; running a schedule
interleaves the processes' atomic segments exactly as the JavaScript event loop
interleaves the corresponding microtasks between `await` points.
-/

namespace MovieApi

/-- The `Tokens` pair from `src/types`: `{ access: string, refresh: string }`. -/
structure Tokens where
  access : String
  refresh : String
deriving DecidableEq

/-- Result of an HTTP request as seen by a caller: a response body on success,
or an error carrying the HTTP status code. -/
inductive HResp where
  | ok (body : String)
  | err (status : Nat)
deriving DecidableEq

/-- Final outcome delivered to the caller of a request that entered the
interceptor's error branch. -/
inductive Outcome where
  | success (body : String)
  | origUnauthorized
  | refreshFailed (e : String)
  | httpError (status : Nat)
deriving DecidableEq

/-- Program counter of one in-flight 401 handler.  Each constructor is a
suspension point of the `async error => ...` interceptor body in
`src/service/api.ts` (or a terminal state). -/
inductive PC where
  | entered
  | waiting
  | resolvedWith (tok : String)
  | rejectedWith (e : String)
  | gettingTokens
  | refreshing (st : Tokens) (idx : Nat)
  | settingTokens (nt : Tokens)
  | clearingTokens (e : String)
  | replayingApi
  | replayingRaw
  | done (o : Outcome)
deriving DecidableEq

/-- `true` exactly on the owner section of the coordinator: the program points
between `isRefreshing = true` and the matching reset of the flag. -/
def PC.isOwner : PC → Bool
  | .gettingTokens => true
  | .refreshing _ _ => true
  | .settingTokens _ => true
  | .clearingTokens _ => true
  | _ => false

/-- `true` exactly on terminal states. -/
def PC.isDone : PC → Bool
  | .done _ => true
  | _ => false

/-- Per-request state: program counter, the `_retry` one-shot marker set on
`originalRequest`, the request's own `Authorization` header, and (ghost) the
list of Authorization headers this request was replayed with. -/
structure PState where
  pc : PC
  retry : Bool
  reqHeader : Option String
  replays : List String
deriving DecidableEq

/-- Process-wide mutable state of `src/service/api.ts`: the `isRefreshing`
flag, the `failedQueue` of pending request records (identified by process
index), the axios instance's default `Authorization` header, the AsyncStorage
contents under `user_tokens`, and two ghost counters instrumenting how often
the refresh endpoint was called and how often `storage.clearTokens` was
invoked. -/
structure GState where
  isRefreshing : Bool
  failedQueue : List Nat
  authHeader : Option String
  stored : Option Tokens
  refreshCalls : Nat
  clearCalls : Nat
deriving DecidableEq

/-- Whole-system state: globals plus `N` request-handler processes. -/
structure Sys where
  g : GState
  N : Nat
  procs : Nat → PState

/-- Environment: the result of the `idx`-th POST to `auth/token/refresh/`
(`Except.ok` carries `data.access`), and the result of replaying request `i`. -/
structure Env where
  refreshResult : Nat → Except String String
  replayResult : Nat → HResp

/-- `setAuthToken` from `src/service/api.ts`: sets the default
`Authorization: Bearer <token>` header when `token` is truthy, and deletes the
header otherwise (the empty string is falsy in JavaScript). -/
def setAuthToken (token : String) (_defaults : Option String) : Option String :=
  if token ≠ "" then some ("Bearer " ++ token) else none

/-- `clearAuthToken` from `src/service/api.ts`: deletes the default header. -/
def clearAuthToken (_defaults : Option String) : Option String :=
  none

/-- `processQueue` from `src/service/api.ts`: rejects every queued record with
`error` when present, otherwise resolves each with `token!` (the non-null
assertion is modelled by `Option.getD`); the queue is emptied by the caller. -/
def processQueue (error : Option String) (token : Option String)
    (q : List Nat) (procs : Nat → PState) : Nat → PState :=
  fun j =>
    if j ∈ q then
      match error with
      | some e => { procs j with pc := .rejectedWith e }
      | none => { procs j with pc := .resolvedWith (token.getD "") }
    else procs j

/-- Pointwise update of the process array. -/
def updProc (procs : Nat → PState) (i : Nat) (p : PState) : Nat → PState :=
  fun j => if j = i then p else procs j

/-- One atomic segment of process `i`'s interceptor body, dispatched on its
program counter.  Each branch is the code of `src/service/api.ts` between two
suspension points. -/
def stepPC (env : Env) (s : Sys) (i : Nat) (p : PState) : PC → Sys
  | .entered =>
    if p.retry then
      { s with procs := updProc s.procs i { p with pc := .done (.httpError 401) } }
    else if s.g.isRefreshing then
      { s with g := { s.g with failedQueue := s.g.failedQueue ++ [i] },
               procs := updProc s.procs i { p with pc := .waiting } }
    else
      { s with g := { s.g with isRefreshing := true },
               procs := updProc s.procs i { p with retry := true, pc := .gettingTokens } }
  | .gettingTokens =>
    match s.g.stored with
    | none =>
      { s with g := { s.g with isRefreshing := false },
               procs := updProc s.procs i { p with pc := .done .origUnauthorized } }
    | some t =>
      if t.refresh = "" then
        { s with g := { s.g with isRefreshing := false },
                 procs := updProc s.procs i { p with pc := .done .origUnauthorized } }
      else
        { s with g := { s.g with refreshCalls := s.g.refreshCalls + 1 },
                 procs := updProc s.procs i { p with pc := .refreshing t s.g.refreshCalls } }
  | .refreshing st idx =>
    match env.refreshResult idx with
    | .ok newAccess =>
      { s with procs := updProc s.procs i { p with pc := .settingTokens { st with access := newAccess } } }
    | .error e =>
      { s with g := { s.g with failedQueue := [], clearCalls := s.g.clearCalls + 1 },
               procs := updProc (processQueue (some e) none s.g.failedQueue s.procs) i
                 { p with pc := .clearingTokens e } }
  | .settingTokens nt =>
    { s with
      g := { s.g with stored := some nt,
                      authHeader := setAuthToken nt.access s.g.authHeader,
                      failedQueue := [],
                      isRefreshing := false },
      procs := updProc (processQueue none (some nt.access) s.g.failedQueue s.procs) i
        { p with reqHeader := some ("Bearer " ++ nt.access),
                 replays := p.replays ++ ["Bearer " ++ nt.access],
                 pc := .replayingApi } }
  | .clearingTokens e =>
    { s with g := { s.g with stored := none,
                             authHeader := clearAuthToken s.g.authHeader,
                             isRefreshing := false },
             procs := updProc s.procs i { p with pc := .done (.refreshFailed e) } }
  | .replayingApi =>
    match env.replayResult i with
    | .ok body => { s with procs := updProc s.procs i { p with pc := .done (.success body) } }
    | .err st =>
      if st = 401 ∧ p.retry = false then
        { s with procs := updProc s.procs i { p with pc := .entered } }
      else
        { s with procs := updProc s.procs i { p with pc := .done (.httpError st) } }
  | .resolvedWith tok =>
    let p' := { p with reqHeader := some ("Bearer " ++ tok),
                       replays := p.replays ++ ["Bearer " ++ tok],
                       pc := PC.replayingRaw }
    { s with procs := updProc s.procs i p' }
  | .replayingRaw =>
    match env.replayResult i with
    | .ok body => { s with procs := updProc s.procs i { p with pc := .done (.success body) } }
    | .err st => { s with procs := updProc s.procs i { p with pc := .done (.httpError st) } }
  | .rejectedWith e =>
    { s with procs := updProc s.procs i { p with pc := .done (.refreshFailed e) } }
  | .waiting => s
  | .done _ => s

/-- Scheduling process `i`: run its next atomic segment (no-op when `i` is not
one of the `N` processes, or when `i` is parked on the queue or finished). -/
def step (env : Env) (s : Sys) (i : Nat) : Sys :=
  if i < s.N then stepPC env s i (s.procs i) (s.procs i).pc else s

/-- Initial per-process state: the request has received a 401 response and the
interceptor body is about to run; `_retry` is unset. -/
def initProc (h0 : Option String) : PState :=
  { pc := .entered, retry := false, reqHeader := h0, replays := [] }

/-- Initial system: `N` concurrently failed requests, idle coordinator,
stored credential pair `stored0`, default header `h0`. -/
def initSys (N : Nat) (stored0 : Option Tokens) (h0 : Option String) : Sys :=
  { g := { isRefreshing := false, failedQueue := [], authHeader := h0,
           stored := stored0, refreshCalls := 0, clearCalls := 0 },
    N := N,
    procs := fun _ => initProc h0 }

/-- Run a schedule: fold the step function over a list of process indices. -/
def run (env : Env) (s : Sys) (sched : List Nat) : Sys :=
  sched.foldl (step env) s

/-- All processes have reached a terminal state. -/
def allDone (s : Sys) : Prop :=
  ∀ i, i < s.N → (s.procs i).pc.isDone = true

instance decidableAllDone (s : Sys) : Decidable (allDone s) :=
  inferInstanceAs (Decidable (∀ i, i < s.N → (s.procs i).pc.isDone = true))

/-- The outcome the interceptor hands to caller `i` for the response of its
replayed request: the body on success, the HTTP error otherwise (a second 401
included, since `_retry` is already set for the owner and the queued replays
bypass the interceptor entirely by going through bare `axios`). -/
def outcomeOfReplay (env : Env) (i : Nat) : Outcome :=
  match env.replayResult i with
  | .ok b => .success b
  | .err st => .httpError st

/-- The refresh credential is missing in the sense of the code's
`!storedTokens?.refresh` test: no stored pair at all, or a falsy (empty)
refresh string. -/
def missingRefresh (stored0 : Option Tokens) : Prop :=
  stored0 = none ∨ ∃ a, stored0 = some ⟨a, ""⟩

/-- The queue built by letting every process except process `0` observe its
401 while process `0` holds the refresh flag: `[1, 2, ..., N-1]`. -/
def queueAll (N : Nat) : List Nat :=
  (List.range N).filter (fun j => j ≠ 0)

/-- Structural invariant of the refresh coordinator, preserved by every step
from every initial state: the `isRefreshing` flag tracks the unique process
inside the owner section, queued processes are exactly the `waiting` ones and
are unretried, and every request is replayed at most once, with its final
outcome determined by its replayed response. -/
structure InvAll (env : Env) (s : Sys) : Prop where
  flagOwner : s.g.isRefreshing = false → ∀ k, k < s.N → (s.procs k).pc.isOwner = false
  ownerUnique : ∀ k, k < s.N → ∀ l, l < s.N →
    (s.procs k).pc.isOwner = true → (s.procs l).pc.isOwner = true → k = l
  flagHasOwner : s.g.isRefreshing = true → ∃ k, k < s.N ∧ (s.procs k).pc.isOwner = true
  ownerRetry : ∀ k, k < s.N →
    ((s.procs k).pc.isOwner = true ∨ (s.procs k).pc = .replayingApi) → (s.procs k).retry = true
  waitQueue : ∀ k, k ∈ s.g.failedQueue ↔ k < s.N ∧ (s.procs k).pc = .waiting
  waitNoRetry : ∀ k, k < s.N → (s.procs k).pc = .waiting → (s.procs k).retry = false
  enteredFresh : ∀ k, k < s.N → (s.procs k).pc = .entered →
    (s.procs k).retry = false ∧ (s.procs k).replays = []
  qFresh : ∀ k, k < s.N →
    ((s.procs k).pc = .waiting ∨ (∃ tok, (s.procs k).pc = .resolvedWith tok) ∨
      (∃ e, (s.procs k).pc = .rejectedWith e)) → (s.procs k).replays = []
  replayBound : ∀ k, k < s.N → (s.procs k).replays.length ≤ 1
  replayDone : ∀ k, k < s.N → (s.procs k).replays ≠ [] →
    (s.procs k).pc = .replayingRaw ∨ (s.procs k).pc = .replayingApi ∨
      (s.procs k).pc = .done (outcomeOfReplay env k)

/-- Intermediate state while the `N` concurrent 401 observations are being
delivered in index order: the first `k` processes have run the synchronous
prefix of the interceptor body (process `0` started the refresh and is parked
on `storage.getTokens`; processes `1..k-1` enqueued), the rest are still about
to run it. -/
def EntryPartial (N k : Nat) (t0 : Tokens) (h0 : Option String) (s : Sys) : Prop :=
  s.N = N ∧
  s.g.isRefreshing = true ∧
  s.g.failedQueue = queueAll k ∧
  s.g.authHeader = h0 ∧
  s.g.stored = some t0 ∧
  s.g.refreshCalls = 0 ∧
  s.g.clearCalls = 0 ∧
  (s.procs 0).pc = .gettingTokens ∧
  (s.procs 0).retry = true ∧
  (s.procs 0).replays = [] ∧
  (∀ j, 0 < j → j < k →
    (s.procs j).pc = .waiting ∧ (s.procs j).retry = false ∧ (s.procs j).replays = []) ∧
  (∀ j, k ≤ j → j < N →
    (s.procs j).pc = .entered ∧ (s.procs j).retry = false ∧ (s.procs j).replays = [])

/-- State after all `N` concurrent 401 observations have been delivered. -/
def EntryDone (N : Nat) (t0 : Tokens) (h0 : Option String) (s : Sys) : Prop :=
  EntryPartial N N t0 h0 s

/-- Single-flight bookkeeping after the entry phase: no process is at the
unauthorized entry point any more, every process past the flag-acquisition or
at a watched replay is marked retried, and either the refresh call has not yet
been issued (process `0` is still parked on the credential read, with the good
pair still stored and nobody else in the owner section) or exactly one refresh
call has been issued and nobody is parked on the credential read. -/
def OneInv (N : Nat) (t0 : Tokens) (s : Sys) : Prop :=
  s.N = N ∧
  (∀ i, i < N → (s.procs i).pc ≠ .entered) ∧
  (∀ i, i < N → ((s.procs i).pc.isOwner = true ∨ (s.procs i).pc = .replayingApi) →
    (s.procs i).retry = true) ∧
  ((s.g.refreshCalls = 0 ∧ (s.procs 0).pc = .gettingTokens ∧ s.g.stored = some t0 ∧
      (∀ i, i < N → (s.procs i).pc.isOwner = true → i = 0))
    ∨ (s.g.refreshCalls = 1 ∧ ∀ i, i < N → (s.procs i).pc ≠ .gettingTokens))

/-- Refresh-cycle state with the whole herd enqueued and the refresh POST not
yet resolved against a successful environment: process `0` is between the
credential read and the `storage.setTokens` write, everybody else is parked on
the queue. -/
def SuccPre (N : Nat) (t0 : Tokens) (h0 : Option String) (na : String) (s : Sys) : Prop :=
  s.N = N ∧
  s.g.isRefreshing = true ∧
  s.g.failedQueue = queueAll N ∧
  s.g.authHeader = h0 ∧
  s.g.stored = some t0 ∧
  s.g.clearCalls = 0 ∧
  ((s.procs 0).pc = .gettingTokens ∧ s.g.refreshCalls = 0 ∨
    (s.procs 0).pc = .refreshing t0 0 ∧ s.g.refreshCalls = 1 ∨
    (s.procs 0).pc = .settingTokens ⟨na, t0.refresh⟩ ∧ s.g.refreshCalls = 1) ∧
  (s.procs 0).retry = true ∧
  (s.procs 0).replays = [] ∧
  ∀ j, 0 < j → j < N → (s.procs j).pc = .waiting ∧ (s.procs j).replays = []

/-- Refresh-cycle state after a successful refresh released the queue: the new
pair is persisted, the default header carries the new access token, and every
process is somewhere between queue release and the completion of its replay. -/
def SuccPost (env : Env) (N : Nat) (t0 : Tokens) (na : String) (s : Sys) : Prop :=
  s.N = N ∧
  s.g.isRefreshing = false ∧
  s.g.failedQueue = [] ∧
  s.g.authHeader = some ("Bearer " ++ na) ∧
  s.g.stored = some ⟨na, t0.refresh⟩ ∧
  s.g.refreshCalls = 1 ∧
  s.g.clearCalls = 0 ∧
  (s.procs 0).retry = true ∧
  (s.procs 0).replays = ["Bearer " ++ na] ∧
  ((s.procs 0).pc = .replayingApi ∨ (s.procs 0).pc = .done (outcomeOfReplay env 0)) ∧
  ∀ j, 0 < j → j < N →
    ((s.procs j).pc = .resolvedWith na ∧ (s.procs j).replays = [] ∨
      (s.procs j).pc = .replayingRaw ∧ (s.procs j).replays = ["Bearer " ++ na] ∨
      (s.procs j).pc = .done (outcomeOfReplay env j) ∧ (s.procs j).replays = ["Bearer " ++ na])

/-- Invariant of the whole successful-refresh cycle. -/
def SuccInv (env : Env) (N : Nat) (t0 : Tokens) (h0 : Option String) (na : String)
    (s : Sys) : Prop :=
  SuccPre N t0 h0 na s ∨ SuccPost env N t0 na s

/-- Refresh-cycle state with the herd enqueued and the refresh POST not yet
resolved against a failing environment. -/
def FailPre (N : Nat) (t0 : Tokens) (h0 : Option String) (s : Sys) : Prop :=
  s.N = N ∧
  s.g.isRefreshing = true ∧
  s.g.failedQueue = queueAll N ∧
  s.g.authHeader = h0 ∧
  s.g.stored = some t0 ∧
  s.g.clearCalls = 0 ∧
  ((s.procs 0).pc = .gettingTokens ∧ s.g.refreshCalls = 0 ∨
    (s.procs 0).pc = .refreshing t0 0 ∧ s.g.refreshCalls = 1) ∧
  (s.procs 0).retry = true ∧
  (s.procs 0).replays = [] ∧
  ∀ j, 0 < j → j < N → (s.procs j).pc = .waiting ∧ (s.procs j).replays = []

/-- Failure cycle, after `processQueue(refreshError)` ran but while process `0`
is still parked on `storage.clearTokens` (the flag is still set here). -/
def FailMid (N : Nat) (t0 : Tokens) (h0 : Option String) (e : String) (s : Sys) : Prop :=
  s.N = N ∧
  s.g.isRefreshing = true ∧
  s.g.failedQueue = [] ∧
  s.g.authHeader = h0 ∧
  s.g.stored = some t0 ∧
  s.g.refreshCalls = 1 ∧
  s.g.clearCalls = 1 ∧
  (s.procs 0).pc = .clearingTokens e ∧
  (s.procs 0).replays = [] ∧
  ∀ j, 0 < j → j < N →
    ((s.procs j).pc = .rejectedWith e ∨ (s.procs j).pc = .done (.refreshFailed e)) ∧
      (s.procs j).replays = []

/-- Failure cycle completed: credentials cleared, header removed, flag reset,
every caller rejected (or about to finish rejecting) with the refresh error. -/
def FailPost (N : Nat) (e : String) (s : Sys) : Prop :=
  s.N = N ∧
  s.g.isRefreshing = false ∧
  s.g.failedQueue = [] ∧
  s.g.authHeader = none ∧
  s.g.stored = none ∧
  s.g.refreshCalls = 1 ∧
  s.g.clearCalls = 1 ∧
  (s.procs 0).pc = .done (.refreshFailed e) ∧
  (s.procs 0).replays = [] ∧
  ∀ j, 0 < j → j < N →
    ((s.procs j).pc = .rejectedWith e ∨ (s.procs j).pc = .done (.refreshFailed e)) ∧
      (s.procs j).replays = []

/-- Invariant of the whole failing-refresh cycle. -/
def FailInv (N : Nat) (t0 : Tokens) (h0 : Option String) (e : String) (s : Sys) : Prop :=
  FailPre N t0 h0 s ∨ FailMid N t0 h0 e s ∨ FailPost N e s

/-- Reachable-state envelope when the stored refresh credential is missing:
no refresh call is ever issued, storage is never touched, and every process is
either still entering, parked on the queue, reading credentials, or finished
with the original unauthorized error. -/
def MissCore (N : Nat) (st0 : Option Tokens) (s : Sys) : Prop :=
  s.N = N ∧
  s.g.stored = st0 ∧
  s.g.refreshCalls = 0 ∧
  s.g.clearCalls = 0 ∧
  ∀ i, i < N → ((s.procs i).pc = .entered ∨ (s.procs i).pc = .waiting ∨
    (s.procs i).pc = .gettingTokens ∨ (s.procs i).pc = .done .origUnauthorized)

/-- In-memory session state of `src/context/AuthContext.tsx` together with the
pieces of global state it manipulates (default header, AsyncStorage), plus
ghost counters for the profile fetch and the server-side logout call. -/
structure AuthState where
  user : Option String
  tokens : Option Tokens
  authHeader : Option String
  stored : Option Tokens
  isLoading : Bool
  profileFetches : Nat
  serverLogoutCalls : Nat
deriving DecidableEq

/-- `logout` from `src/context/AuthContext.tsx`: fires the server logout only
when the captured `tokens` state holds a truthy refresh value (errors are
caught), then clears the in-memory user and tokens, the default header, and
the stored pair. -/
def logoutModel (tokensSeen : Option Tokens) (s : AuthState) : AuthState :=
  { s with
    user := none,
    tokens := none,
    authHeader := clearAuthToken s.authHeader,
    stored := none,
    serverLogoutCalls := s.serverLogoutCalls +
      (match tokensSeen with
       | some tk => if tk.refresh ≠ "" then 1 else 0
       | none => 0) }

/-- `loadUserFromStorage` from `src/context/AuthContext.tsx`, run at process
start: read the stored pair; if present, attach the access credential and
fetch the profile, falling back to `logout()` on any fetch error (the `logout`
closure captured the initial render's `tokens` state, which is `null`); if
absent, finish loading directly. -/
def loadUserFromStorage (profileResult : Except String String) (stored0 : Option Tokens)
    (h0 : Option String) : AuthState :=
  let s0 : AuthState :=
    { user := none, tokens := none, authHeader := h0, stored := stored0,
      isLoading := true, profileFetches := 0, serverLogoutCalls := 0 }
  match stored0 with
  | none => { s0 with isLoading := false }
  | some tk =>
    let s1 := { s0 with tokens := some tk, authHeader := setAuthToken tk.access s0.authHeader }
    match profileResult with
    | .ok u => { s1 with user := some u, profileFetches := 1, isLoading := false }
    | .error _ =>
      let s2 := logoutModel none { s1 with profileFetches := 1 }
      { s2 with isLoading := false }

/-- A sample environment: the refresh endpoint answers `new`, every replay
succeeds with a body naming the request. -/
def envOk : Env :=
  { refreshResult := fun _ => .ok "new", replayResult := fun i => .ok ("body" ++ toString i) }

/-- A sample environment whose refresh endpoint fails with a 400-class error. -/
def envBad : Env :=
  { refreshResult := fun _ => .error "refresh400",
    replayResult := fun i => .ok ("body" ++ toString i) }

/-- A sample environment where every replay comes back 401 again. -/
def envAll401 : Env :=
  { refreshResult := fun _ => .ok "new", replayResult := fun _ => .err 401 }

/-- The stored pair used in concrete scenarios. -/
def tokOld : Tokens := ⟨"old", "r1"⟩

/-- Run of a concurrent herd: all `N` unauthorized responses are observed (in
index order) before anything else happens, then an arbitrary schedule
continues. -/
def runConc (env : Env) (N : Nat) (stored0 : Option Tokens) (h0 : Option String)
    (sched : List Nat) : Sys :=
  run env (initSys N stored0 h0) (List.range N ++ sched)

section BasicLemmas

variable {env : Env} {s : Sys} {i j : Nat} {p : PState} {procs : Nat → PState}

@[simp]
theorem updProc_self : updProc procs i p i = p := by
  simp [updProc]

theorem updProc_ne (h : j ≠ i) : updProc procs i p j = procs j := by
  simp [updProc, h]

theorem updProc_eval : updProc procs i p j = if j = i then p else procs j := rfl

theorem processQueue_mem {error token q} (h : j ∈ q) :
    processQueue error token q procs j =
      match error with
      | some e => { procs j with pc := .rejectedWith e }
      | none => { procs j with pc := .resolvedWith (token.getD "") } := by
  simp [processQueue, h]

theorem processQueue_not_mem {error token q} (h : j ∉ q) :
    processQueue error token q procs j = procs j := by
  simp [processQueue, h]

theorem mem_queueAll {N : Nat} : j ∈ queueAll N ↔ j < N ∧ j ≠ 0 := by
  simp [queueAll, List.mem_filter, List.mem_range]

theorem queueAll_succ {k : Nat} (hk : k ≠ 0) :
    queueAll (k + 1) = queueAll k ++ [k] := by
  simp [queueAll, List.range_succ, List.filter_append, hk]

theorem run_nil : run env s [] = s := rfl

theorem run_cons {l : List Nat} : run env s (i :: l) = run env (step env s i) l := rfl

theorem run_append {l₁ l₂ : List Nat} :
    run env s (l₁ ++ l₂) = run env (run env s l₁) l₂ := by
  simp [run, List.foldl_append]

theorem run_preserve (P : Sys → Prop) (hstep : ∀ s i, P s → P (step env s i)) :
    ∀ (l : List Nat) (s : Sys), P s → P (run env s l) := by
  intro l
  induction l with
  | nil => intro s hs; exact hs
  | cons a t ih => intro s hs; exact ih (step env s a) (hstep s a hs)

theorem stepPC_N (pc : PC) : (stepPC env s i p pc).N = s.N := by
  cases pc <;> simp only [stepPC] <;> (repeat' split) <;> rfl

@[simp]
theorem step_N : (step env s i).N = s.N := by
  unfold step
  split
  · exact stepPC_N _
  · rfl

@[simp]
theorem run_N {l : List Nat} : (run env s l).N = s.N := by
  induction l generalizing s with
  | nil => rfl
  | cons a t ih => rw [run_cons, ih, step_N]

theorem step_oob (h : ¬ i < s.N) : step env s i = s := by
  simp [step, h]

theorem step_entered_retry (hi : i < s.N) (hpc : (s.procs i).pc = .entered)
    (hr : (s.procs i).retry = true) :
    step env s i =
      { s with procs := updProc s.procs i { s.procs i with pc := .done (.httpError 401) } } := by
  unfold step
  rw [if_pos hi, hpc]
  simp [stepPC, hr]

theorem step_entered_enqueue (hi : i < s.N) (hpc : (s.procs i).pc = .entered)
    (hr : (s.procs i).retry = false) (hf : s.g.isRefreshing = true) :
    step env s i =
      { s with g := { s.g with failedQueue := s.g.failedQueue ++ [i] },
               procs := updProc s.procs i { s.procs i with pc := .waiting } } := by
  unfold step
  rw [if_pos hi, hpc]
  simp [stepPC, hr, hf]

theorem step_entered_start (hi : i < s.N) (hpc : (s.procs i).pc = .entered)
    (hr : (s.procs i).retry = false) (hf : s.g.isRefreshing = false) :
    step env s i =
      { s with g := { s.g with isRefreshing := true },
               procs := updProc s.procs i
                 { s.procs i with retry := true, pc := .gettingTokens } } := by
  unfold step
  rw [if_pos hi, hpc]
  simp [stepPC, hr, hf]

theorem step_getting_none (hi : i < s.N) (hpc : (s.procs i).pc = .gettingTokens)
    (hst : s.g.stored = none) :
    step env s i =
      { s with g := { s.g with isRefreshing := false },
               procs := updProc s.procs i { s.procs i with pc := .done .origUnauthorized } } := by
  unfold step
  rw [if_pos hi, hpc]
  simp [stepPC, hst]

theorem step_getting_empty (hi : i < s.N) (hpc : (s.procs i).pc = .gettingTokens)
    {t : Tokens} (hst : s.g.stored = some t) (ht : t.refresh = "") :
    step env s i =
      { s with g := { s.g with isRefreshing := false },
               procs := updProc s.procs i { s.procs i with pc := .done .origUnauthorized } } := by
  unfold step
  rw [if_pos hi, hpc]
  simp [stepPC, hst, ht]

theorem step_getting_some (hi : i < s.N) (hpc : (s.procs i).pc = .gettingTokens)
    {t : Tokens} (hst : s.g.stored = some t) (ht : t.refresh ≠ "") :
    step env s i =
      { s with g := { s.g with refreshCalls := s.g.refreshCalls + 1 },
               procs := updProc s.procs i
                 { s.procs i with pc := .refreshing t s.g.refreshCalls } } := by
  unfold step
  rw [if_pos hi, hpc]
  simp [stepPC, hst, ht]

theorem step_refreshing_ok (hi : i < s.N) {t : Tokens} {idx : Nat}
    (hpc : (s.procs i).pc = .refreshing t idx) {na : String}
    (hres : env.refreshResult idx = .ok na) :
    step env s i =
      { s with procs := updProc s.procs i
                 { s.procs i with pc := .settingTokens { t with access := na } } } := by
  unfold step
  rw [if_pos hi, hpc]
  simp [stepPC, hres]

theorem step_refreshing_err (hi : i < s.N) {t : Tokens} {idx : Nat}
    (hpc : (s.procs i).pc = .refreshing t idx) {e : String}
    (hres : env.refreshResult idx = .error e) :
    step env s i =
      { s with g := { s.g with failedQueue := [], clearCalls := s.g.clearCalls + 1 },
               procs := updProc (processQueue (some e) none s.g.failedQueue s.procs) i
                 { s.procs i with pc := .clearingTokens e } } := by
  unfold step
  rw [if_pos hi, hpc]
  simp [stepPC, hres]

theorem step_setting (hi : i < s.N) {nt : Tokens}
    (hpc : (s.procs i).pc = .settingTokens nt) :
    step env s i =
      { s with
        g := { s.g with stored := some nt,
                        authHeader := setAuthToken nt.access s.g.authHeader,
                        failedQueue := [],
                        isRefreshing := false },
        procs := updProc (processQueue none (some nt.access) s.g.failedQueue s.procs) i
          { s.procs i with reqHeader := some ("Bearer " ++ nt.access),
                           replays := (s.procs i).replays ++ ["Bearer " ++ nt.access],
                           pc := .replayingApi } } := by
  unfold step
  rw [if_pos hi, hpc]
  simp [stepPC]

theorem step_clearing (hi : i < s.N) {e : String}
    (hpc : (s.procs i).pc = .clearingTokens e) :
    step env s i =
      { s with g := { s.g with stored := none,
                               authHeader := clearAuthToken s.g.authHeader,
                               isRefreshing := false },
               procs := updProc s.procs i { s.procs i with pc := .done (.refreshFailed e) } } := by
  unfold step
  rw [if_pos hi, hpc]
  simp [stepPC]

theorem step_replayApi_ok (hi : i < s.N) (hpc : (s.procs i).pc = .replayingApi)
    {body : String} (hres : env.replayResult i = .ok body) :
    step env s i =
      { s with procs := updProc s.procs i { s.procs i with pc := .done (.success body) } } := by
  unfold step
  rw [if_pos hi, hpc]
  simp [stepPC, hres]

theorem step_replayApi_err (hi : i < s.N) (hpc : (s.procs i).pc = .replayingApi)
    {st : Nat} (hres : env.replayResult i = .err st) (hr : (s.procs i).retry = true) :
    step env s i =
      { s with procs := updProc s.procs i { s.procs i with pc := .done (.httpError st) } } := by
  unfold step
  rw [if_pos hi, hpc]
  simp [stepPC, hres, hr]

theorem step_resolved (hi : i < s.N) {tok : String}
    (hpc : (s.procs i).pc = .resolvedWith tok) :
    step env s i =
      { s with procs := updProc s.procs i
                 { s.procs i with reqHeader := some ("Bearer " ++ tok),
                                  replays := (s.procs i).replays ++ ["Bearer " ++ tok],
                                  pc := .replayingRaw } } := by
  unfold step
  rw [if_pos hi, hpc]
  simp [stepPC]

theorem step_replayRaw_ok (hi : i < s.N) (hpc : (s.procs i).pc = .replayingRaw)
    {body : String} (hres : env.replayResult i = .ok body) :
    step env s i =
      { s with procs := updProc s.procs i { s.procs i with pc := .done (.success body) } } := by
  unfold step
  rw [if_pos hi, hpc]
  simp [stepPC, hres]

theorem step_replayRaw_err (hi : i < s.N) (hpc : (s.procs i).pc = .replayingRaw)
    {st : Nat} (hres : env.replayResult i = .err st) :
    step env s i =
      { s with procs := updProc s.procs i { s.procs i with pc := .done (.httpError st) } } := by
  unfold step
  rw [if_pos hi, hpc]
  simp [stepPC, hres]

theorem step_rejected (hi : i < s.N) {e : String}
    (hpc : (s.procs i).pc = .rejectedWith e) :
    step env s i =
      { s with procs := updProc s.procs i { s.procs i with pc := .done (.refreshFailed e) } } := by
  unfold step
  rw [if_pos hi, hpc]
  simp [stepPC]

theorem step_waiting (hi : i < s.N) (hpc : (s.procs i).pc = .waiting) :
    step env s i = s := by
  unfold step
  rw [if_pos hi, hpc]
  simp [stepPC]

theorem step_done (hi : i < s.N) {o : Outcome} (hpc : (s.procs i).pc = .done o) :
    step env s i = s := by
  unfold step
  rw [if_pos hi, hpc]
  simp [stepPC]

end BasicLemmas

section Preservation

variable {env : Env} {s : Sys} {i : Nat}

theorem invAll_step_entered (h : InvAll env s) (hi : i < s.N)
    (hpc : (s.procs i).pc = .entered) : InvAll env (step env s i) := by
  obtain ⟨hr, hrep⟩ := h.enteredFresh i hi hpc
  cases hf : s.g.isRefreshing with
  | true =>
    rw [step_entered_enqueue hi hpc hr hf]
    refine ⟨?_, ?_, ?_, ?_, ?_, ?_, ?_, ?_, ?_, ?_⟩
    · intro hff
      dsimp only at hff
      rw [hf] at hff
      exact Bool.noConfusion hff
    · intro k hk l hl hok hol
      dsimp only at hk hl hok hol ⊢
      by_cases hki : k = i
      · subst hki
        rw [updProc_self] at hok
        simp [PC.isOwner] at hok
      · by_cases hli : l = i
        · subst hli
          rw [updProc_self] at hol
          simp [PC.isOwner] at hol
        · rw [updProc_ne hki] at hok
          rw [updProc_ne hli] at hol
          exact h.ownerUnique k hk l hl hok hol
    · intro _
      obtain ⟨k, hk, hko⟩ := h.flagHasOwner hf
      have hki : k ≠ i := by
        intro e
        subst e
        rw [hpc] at hko
        simp [PC.isOwner] at hko
      refine ⟨k, hk, ?_⟩
      dsimp only
      rw [updProc_ne hki]
      exact hko
    · intro k hk hko
      dsimp only at hk hko ⊢
      by_cases hki : k = i
      · subst hki
        rw [updProc_self] at hko
        simp [PC.isOwner] at hko
      · rw [updProc_ne hki] at hko ⊢
        exact h.ownerRetry k hk hko
    · intro k
      dsimp only
      rw [List.mem_append, List.mem_singleton]
      constructor
      · intro hmem
        rcases hmem with hmem | hmem
        · obtain ⟨hk, hw⟩ := (h.waitQueue k).1 hmem
          have hki : k ≠ i := by
            intro e
            subst e
            rw [hpc] at hw
            exact PC.noConfusion hw
          rw [updProc_ne hki]
          exact ⟨hk, hw⟩
        · subst hmem
          rw [updProc_self]
          exact ⟨hi, rfl⟩
      · rintro ⟨hk, hw⟩
        by_cases hki : k = i
        · right; exact hki
        · rw [updProc_ne hki] at hw
          left
          exact (h.waitQueue k).2 ⟨hk, hw⟩
    · intro k hk hw
      dsimp only at hk hw ⊢
      by_cases hki : k = i
      · subst hki
        rw [updProc_self] at hw ⊢
        exact hr
      · rw [updProc_ne hki] at hw ⊢
        exact h.waitNoRetry k hk hw
    · intro k hk hkpc
      dsimp only at hk hkpc ⊢
      by_cases hki : k = i
      · subst hki
        rw [updProc_self] at hkpc
        exact PC.noConfusion hkpc
      · rw [updProc_ne hki] at hkpc ⊢
        exact h.enteredFresh k hk hkpc
    · intro k hk hkpc
      dsimp only at hk hkpc ⊢
      by_cases hki : k = i
      · subst hki
        rw [updProc_self] at hkpc ⊢
        exact hrep
      · rw [updProc_ne hki] at hkpc ⊢
        exact h.qFresh k hk hkpc
    · intro k hk
      dsimp only at hk ⊢
      by_cases hki : k = i
      · subst hki
        rw [updProc_self]
        exact h.replayBound k hk
      · rw [updProc_ne hki]
        exact h.replayBound k hk
    · intro k hk hkr
      dsimp only at hk hkr ⊢
      by_cases hki : k = i
      · subst hki
        rw [updProc_self] at hkr
        exact absurd hrep hkr
      · rw [updProc_ne hki] at hkr ⊢
        exact h.replayDone k hk hkr
  | false =>
    rw [step_entered_start hi hpc hr hf]
    refine ⟨?_, ?_, ?_, ?_, ?_, ?_, ?_, ?_, ?_, ?_⟩
    · intro hff
      dsimp only at hff
      exact Bool.noConfusion hff
    · intro k hk l hl hok hol
      dsimp only at hk hl hok hol ⊢
      by_cases hki : k = i
      · by_cases hli : l = i
        · rw [hki, hli]
        · exfalso
          rw [updProc_ne hli] at hol
          have := h.flagOwner hf l hl
          rw [this] at hol
          exact Bool.noConfusion hol
      · exfalso
        rw [updProc_ne hki] at hok
        have := h.flagOwner hf k hk
        rw [this] at hok
        exact Bool.noConfusion hok
    · intro _
      refine ⟨i, hi, ?_⟩
      dsimp only
      rw [updProc_self]
      rfl
    · intro k hk hko
      dsimp only at hk hko ⊢
      by_cases hki : k = i
      · subst hki
        rw [updProc_self]
      · rw [updProc_ne hki] at hko ⊢
        exact h.ownerRetry k hk hko
    · intro k
      dsimp only
      constructor
      · intro hmem
        obtain ⟨hk, hw⟩ := (h.waitQueue k).1 hmem
        have hki : k ≠ i := by
          intro e
          subst e
          rw [hpc] at hw
          exact PC.noConfusion hw
        rw [updProc_ne hki]
        exact ⟨hk, hw⟩
      · rintro ⟨hk, hw⟩
        by_cases hki : k = i
        · subst hki
          rw [updProc_self] at hw
          exact PC.noConfusion hw
        · rw [updProc_ne hki] at hw
          exact (h.waitQueue k).2 ⟨hk, hw⟩
    · intro k hk hw
      dsimp only at hk hw ⊢
      by_cases hki : k = i
      · subst hki
        rw [updProc_self] at hw
        exact PC.noConfusion hw
      · rw [updProc_ne hki] at hw ⊢
        exact h.waitNoRetry k hk hw
    · intro k hk hkpc
      dsimp only at hk hkpc ⊢
      by_cases hki : k = i
      · subst hki
        rw [updProc_self] at hkpc
        exact PC.noConfusion hkpc
      · rw [updProc_ne hki] at hkpc ⊢
        exact h.enteredFresh k hk hkpc
    · intro k hk hkpc
      dsimp only at hk hkpc ⊢
      by_cases hki : k = i
      · subst hki
        rw [updProc_self] at hkpc ⊢
        exact hrep
      · rw [updProc_ne hki] at hkpc ⊢
        exact h.qFresh k hk hkpc
    · intro k hk
      dsimp only at hk ⊢
      by_cases hki : k = i
      · subst hki
        rw [updProc_self]
        exact h.replayBound k hk
      · rw [updProc_ne hki]
        exact h.replayBound k hk
    · intro k hk hkr
      dsimp only at hk hkr ⊢
      by_cases hki : k = i
      · subst hki
        rw [updProc_self] at hkr
        exact absurd hrep hkr
      · rw [updProc_ne hki] at hkr ⊢
        exact h.replayDone k hk hkr

theorem invAll_step_getting_dead (h : InvAll env s) (hi : i < s.N)
    (hpc : (s.procs i).pc = .gettingTokens)
    (hstep : step env s i =
      { s with g := { s.g with isRefreshing := false },
               procs := updProc s.procs i { s.procs i with pc := .done .origUnauthorized } }) :
    InvAll env (step env s i) := by
  have hOwn : (s.procs i).pc.isOwner = true := by rw [hpc]; rfl
  have hrep : (s.procs i).replays = [] := by
    by_contra hne
    rcases h.replayDone i hi hne with h1 | h1 | h1 <;> rw [hpc] at h1 <;> exact PC.noConfusion h1
  rw [hstep]
  refine ⟨?_, ?_, ?_, ?_, ?_, ?_, ?_, ?_, ?_, ?_⟩
  · intro _ k hk
    dsimp only at hk ⊢
    by_cases hki : k = i
    · subst hki
      rw [updProc_self]
      rfl
    · rw [updProc_ne hki]
      by_cases hok : (s.procs k).pc.isOwner = true
      · exact absurd (h.ownerUnique k hk i hi hok hOwn) hki
      · simpa using hok
  · intro k hk l hl hok hol
    dsimp only at hk hl hok hol ⊢
    by_cases hki : k = i
    · subst hki
      rw [updProc_self] at hok
      simp [PC.isOwner] at hok
    · by_cases hli : l = i
      · subst hli
        rw [updProc_self] at hol
        simp [PC.isOwner] at hol
      · rw [updProc_ne hki] at hok
        rw [updProc_ne hli] at hol
        exact h.ownerUnique k hk l hl hok hol
  · intro hff
    dsimp only at hff
    exact Bool.noConfusion hff
  · intro k hk hko
    dsimp only at hk hko ⊢
    by_cases hki : k = i
    · subst hki
      rw [updProc_self] at hko
      rcases hko with hko | hko
      · simp [PC.isOwner] at hko
      · exact PC.noConfusion hko
    · rw [updProc_ne hki] at hko ⊢
      exact h.ownerRetry k hk hko
  · intro k
    dsimp only
    constructor
    · intro hmem
      obtain ⟨hk, hw⟩ := (h.waitQueue k).1 hmem
      have hki : k ≠ i := by
        intro e
        subst e
        rw [hpc] at hw
        exact PC.noConfusion hw
      rw [updProc_ne hki]
      exact ⟨hk, hw⟩
    · rintro ⟨hk, hw⟩
      by_cases hki : k = i
      · subst hki
        rw [updProc_self] at hw
        exact PC.noConfusion hw
      · rw [updProc_ne hki] at hw
        exact (h.waitQueue k).2 ⟨hk, hw⟩
  · intro k hk hw
    dsimp only at hk hw ⊢
    by_cases hki : k = i
    · subst hki
      rw [updProc_self] at hw
      exact PC.noConfusion hw
    · rw [updProc_ne hki] at hw ⊢
      exact h.waitNoRetry k hk hw
  · intro k hk hkpc
    dsimp only at hk hkpc ⊢
    by_cases hki : k = i
    · subst hki
      rw [updProc_self] at hkpc
      exact PC.noConfusion hkpc
    · rw [updProc_ne hki] at hkpc ⊢
      exact h.enteredFresh k hk hkpc
  · intro k hk hkpc
    dsimp only at hk hkpc ⊢
    by_cases hki : k = i
    · subst hki
      rw [updProc_self] at hkpc ⊢
      exact hrep
    · rw [updProc_ne hki] at hkpc ⊢
      exact h.qFresh k hk hkpc
  · intro k hk
    dsimp only at hk ⊢
    by_cases hki : k = i
    · subst hki
      rw [updProc_self]
      exact h.replayBound k hk
    · rw [updProc_ne hki]
      exact h.replayBound k hk
  · intro k hk hkr
    dsimp only at hk hkr ⊢
    by_cases hki : k = i
    · subst hki
      rw [updProc_self] at hkr
      exact absurd hrep hkr
    · rw [updProc_ne hki] at hkr ⊢
      exact h.replayDone k hk hkr

theorem invAll_step_getting (h : InvAll env s) (hi : i < s.N)
    (hpc : (s.procs i).pc = .gettingTokens) : InvAll env (step env s i) := by
  have hOwn : (s.procs i).pc.isOwner = true := by rw [hpc]; rfl
  have hrep : (s.procs i).replays = [] := by
    by_contra hne
    rcases h.replayDone i hi hne with h1 | h1 | h1 <;> rw [hpc] at h1 <;> exact PC.noConfusion h1
  cases hst : s.g.stored with
  | none => exact invAll_step_getting_dead h hi hpc (step_getting_none hi hpc hst)
  | some t =>
    by_cases ht : t.refresh = ""
    · exact invAll_step_getting_dead h hi hpc (step_getting_empty hi hpc hst ht)
    · rw [step_getting_some hi hpc hst ht]
      refine ⟨?_, ?_, ?_, ?_, ?_, ?_, ?_, ?_, ?_, ?_⟩
      · intro hff
        dsimp only at hff
        have hco := h.flagOwner hff i hi
        rw [hOwn] at hco
        exact Bool.noConfusion hco
      · intro k hk l hl hok hol
        dsimp only at hk hl hok hol ⊢
        by_cases hki : k = i
        · by_cases hli : l = i
          · rw [hki, hli]
          · rw [updProc_ne hli] at hol
            exact absurd (h.ownerUnique l hl i hi hol hOwn) hli
        · rw [updProc_ne hki] at hok
          exact absurd (h.ownerUnique k hk i hi hok hOwn) hki
      · intro _
        refine ⟨i, hi, ?_⟩
        dsimp only
        rw [updProc_self]
        rfl
      · intro k hk hko
        dsimp only at hk hko ⊢
        by_cases hki : k = i
        · subst hki
          rw [updProc_self]
          exact h.ownerRetry k hk (Or.inl hOwn)
        · rw [updProc_ne hki] at hko ⊢
          exact h.ownerRetry k hk hko
      · intro k
        dsimp only
        constructor
        · intro hmem
          obtain ⟨hk, hw⟩ := (h.waitQueue k).1 hmem
          have hki : k ≠ i := by
            intro e
            subst e
            rw [hpc] at hw
            exact PC.noConfusion hw
          rw [updProc_ne hki]
          exact ⟨hk, hw⟩
        · rintro ⟨hk, hw⟩
          by_cases hki : k = i
          · subst hki
            rw [updProc_self] at hw
            exact PC.noConfusion hw
          · rw [updProc_ne hki] at hw
            exact (h.waitQueue k).2 ⟨hk, hw⟩
      · intro k hk hw
        dsimp only at hk hw ⊢
        by_cases hki : k = i
        · subst hki
          rw [updProc_self] at hw
          exact PC.noConfusion hw
        · rw [updProc_ne hki] at hw ⊢
          exact h.waitNoRetry k hk hw
      · intro k hk hkpc
        dsimp only at hk hkpc ⊢
        by_cases hki : k = i
        · subst hki
          rw [updProc_self] at hkpc
          exact PC.noConfusion hkpc
        · rw [updProc_ne hki] at hkpc ⊢
          exact h.enteredFresh k hk hkpc
      · intro k hk hkpc
        dsimp only at hk hkpc ⊢
        by_cases hki : k = i
        · subst hki
          rw [updProc_self] at hkpc
          rcases hkpc with hkpc | ⟨tok, hkpc⟩ | ⟨e, hkpc⟩ <;> exact PC.noConfusion hkpc
        · rw [updProc_ne hki] at hkpc ⊢
          exact h.qFresh k hk hkpc
      · intro k hk
        dsimp only at hk ⊢
        by_cases hki : k = i
        · subst hki
          rw [updProc_self]
          exact h.replayBound k hk
        · rw [updProc_ne hki]
          exact h.replayBound k hk
      · intro k hk hkr
        dsimp only at hk hkr ⊢
        by_cases hki : k = i
        · subst hki
          rw [updProc_self] at hkr
          exact absurd hrep hkr
        · rw [updProc_ne hki] at hkr ⊢
          exact h.replayDone k hk hkr

theorem invAll_step_refreshing (h : InvAll env s) (hi : i < s.N) {t : Tokens} {idx : Nat}
    (hpc : (s.procs i).pc = .refreshing t idx) : InvAll env (step env s i) := by
  have hOwn : (s.procs i).pc.isOwner = true := by rw [hpc]; rfl
  have hrep : (s.procs i).replays = [] := by
    by_contra hne
    rcases h.replayDone i hi hne with h1 | h1 | h1 <;> rw [hpc] at h1 <;> exact PC.noConfusion h1
  cases hres : env.refreshResult idx with
  | ok na =>
    rw [step_refreshing_ok hi hpc hres]
    refine ⟨?_, ?_, ?_, ?_, ?_, ?_, ?_, ?_, ?_, ?_⟩
    · intro hff
      dsimp only at hff
      have hco := h.flagOwner hff i hi
      rw [hOwn] at hco
      exact Bool.noConfusion hco
    · intro k hk l hl hok hol
      dsimp only at hk hl hok hol ⊢
      by_cases hki : k = i
      · by_cases hli : l = i
        · rw [hki, hli]
        · rw [updProc_ne hli] at hol
          exact absurd (h.ownerUnique l hl i hi hol hOwn) hli
      · rw [updProc_ne hki] at hok
        exact absurd (h.ownerUnique k hk i hi hok hOwn) hki
    · intro _
      refine ⟨i, hi, ?_⟩
      dsimp only
      rw [updProc_self]
      rfl
    · intro k hk hko
      dsimp only at hk hko ⊢
      by_cases hki : k = i
      · subst hki
        rw [updProc_self]
        exact h.ownerRetry k hk (Or.inl hOwn)
      · rw [updProc_ne hki] at hko ⊢
        exact h.ownerRetry k hk hko
    · intro k
      dsimp only
      constructor
      · intro hmem
        obtain ⟨hk, hw⟩ := (h.waitQueue k).1 hmem
        have hki : k ≠ i := by
          intro e
          subst e
          rw [hpc] at hw
          exact PC.noConfusion hw
        rw [updProc_ne hki]
        exact ⟨hk, hw⟩
      · rintro ⟨hk, hw⟩
        by_cases hki : k = i
        · subst hki
          rw [updProc_self] at hw
          exact PC.noConfusion hw
        · rw [updProc_ne hki] at hw
          exact (h.waitQueue k).2 ⟨hk, hw⟩
    · intro k hk hw
      dsimp only at hk hw ⊢
      by_cases hki : k = i
      · subst hki
        rw [updProc_self] at hw
        exact PC.noConfusion hw
      · rw [updProc_ne hki] at hw ⊢
        exact h.waitNoRetry k hk hw
    · intro k hk hkpc
      dsimp only at hk hkpc ⊢
      by_cases hki : k = i
      · subst hki
        rw [updProc_self] at hkpc
        exact PC.noConfusion hkpc
      · rw [updProc_ne hki] at hkpc ⊢
        exact h.enteredFresh k hk hkpc
    · intro k hk hkpc
      dsimp only at hk hkpc ⊢
      by_cases hki : k = i
      · subst hki
        rw [updProc_self] at hkpc
        rcases hkpc with hkpc | ⟨tok, hkpc⟩ | ⟨e, hkpc⟩ <;> exact PC.noConfusion hkpc
      · rw [updProc_ne hki] at hkpc ⊢
        exact h.qFresh k hk hkpc
    · intro k hk
      dsimp only at hk ⊢
      by_cases hki : k = i
      · subst hki
        rw [updProc_self]
        exact h.replayBound k hk
      · rw [updProc_ne hki]
        exact h.replayBound k hk
    · intro k hk hkr
      dsimp only at hk hkr ⊢
      by_cases hki : k = i
      · subst hki
        rw [updProc_self] at hkr
        exact absurd hrep hkr
      · rw [updProc_ne hki] at hkr ⊢
        exact h.replayDone k hk hkr
  | error e =>
    rw [step_refreshing_err hi hpc hres]
    refine ⟨?_, ?_, ?_, ?_, ?_, ?_, ?_, ?_, ?_, ?_⟩
    · intro hff
      dsimp only at hff
      have hco := h.flagOwner hff i hi
      rw [hOwn] at hco
      exact Bool.noConfusion hco
    · intro k hk l hl hok hol
      dsimp only at hk hl hok hol ⊢
      by_cases hki : k = i
      · by_cases hli : l = i
        · rw [hki, hli]
        · exfalso
          rw [updProc_ne hli] at hol
          by_cases hq : l ∈ s.g.failedQueue
          · rw [processQueue_mem hq] at hol
            simp [PC.isOwner] at hol
          · rw [processQueue_not_mem hq] at hol
            exact absurd (h.ownerUnique l hl i hi hol hOwn) hli
      · exfalso
        rw [updProc_ne hki] at hok
        by_cases hq : k ∈ s.g.failedQueue
        · rw [processQueue_mem hq] at hok
          simp [PC.isOwner] at hok
        · rw [processQueue_not_mem hq] at hok
          exact absurd (h.ownerUnique k hk i hi hok hOwn) hki
    · intro _
      refine ⟨i, hi, ?_⟩
      dsimp only
      rw [updProc_self]
      rfl
    · intro k hk hko
      dsimp only at hk hko ⊢
      by_cases hki : k = i
      · subst hki
        rw [updProc_self]
        exact h.ownerRetry k hk (Or.inl hOwn)
      · rw [updProc_ne hki] at hko ⊢
        by_cases hq : k ∈ s.g.failedQueue
        · rw [processQueue_mem hq] at hko
          dsimp only at hko
          rcases hko with hko | hko
          · simp [PC.isOwner] at hko
          · exact PC.noConfusion hko
        · rw [processQueue_not_mem hq] at hko ⊢
          exact h.ownerRetry k hk hko
    · intro k
      dsimp only
      simp only [List.not_mem_nil, false_iff]
      rintro ⟨hk, hw⟩
      by_cases hki : k = i
      · subst hki
        rw [updProc_self] at hw
        exact PC.noConfusion hw
      · rw [updProc_ne hki] at hw
        by_cases hq : k ∈ s.g.failedQueue
        · rw [processQueue_mem hq] at hw
          exact PC.noConfusion hw
        · rw [processQueue_not_mem hq] at hw
          exact hq ((h.waitQueue k).2 ⟨hk, hw⟩)
    · intro k hk hw
      dsimp only at hk hw ⊢
      by_cases hki : k = i
      · subst hki
        rw [updProc_self] at hw
        exact PC.noConfusion hw
      · rw [updProc_ne hki] at hw ⊢
        by_cases hq : k ∈ s.g.failedQueue
        · rw [processQueue_mem hq] at hw
          exact PC.noConfusion hw
        · rw [processQueue_not_mem hq] at hw ⊢
          exact h.waitNoRetry k hk hw
    · intro k hk hkpc
      dsimp only at hk hkpc ⊢
      by_cases hki : k = i
      · subst hki
        rw [updProc_self] at hkpc
        exact PC.noConfusion hkpc
      · rw [updProc_ne hki] at hkpc ⊢
        by_cases hq : k ∈ s.g.failedQueue
        · rw [processQueue_mem hq] at hkpc
          exact PC.noConfusion hkpc
        · rw [processQueue_not_mem hq] at hkpc ⊢
          exact h.enteredFresh k hk hkpc
    · intro k hk hkpc
      dsimp only at hk hkpc ⊢
      by_cases hki : k = i
      · subst hki
        rw [updProc_self] at hkpc
        rcases hkpc with hkpc | ⟨tok, hkpc⟩ | ⟨e1, hkpc⟩ <;> exact PC.noConfusion hkpc
      · rw [updProc_ne hki] at hkpc ⊢
        by_cases hq : k ∈ s.g.failedQueue
        · rw [processQueue_mem hq] at hkpc ⊢
          dsimp only
          exact h.qFresh k hk (Or.inl ((h.waitQueue k).1 hq).2)
        · rw [processQueue_not_mem hq] at hkpc ⊢
          exact h.qFresh k hk hkpc
    · intro k hk
      dsimp only at hk ⊢
      by_cases hki : k = i
      · subst hki
        rw [updProc_self]
        exact h.replayBound k hk
      · rw [updProc_ne hki]
        by_cases hq : k ∈ s.g.failedQueue
        · rw [processQueue_mem hq]
          exact h.replayBound k hk
        · rw [processQueue_not_mem hq]
          exact h.replayBound k hk
    · intro k hk hkr
      dsimp only at hk hkr ⊢
      by_cases hki : k = i
      · subst hki
        rw [updProc_self] at hkr
        exact absurd hrep hkr
      · rw [updProc_ne hki] at hkr ⊢
        by_cases hq : k ∈ s.g.failedQueue
        · rw [processQueue_mem hq] at hkr
          dsimp only at hkr
          exact absurd (h.qFresh k hk (Or.inl ((h.waitQueue k).1 hq).2)) hkr
        · rw [processQueue_not_mem hq] at hkr ⊢
          exact h.replayDone k hk hkr

theorem invAll_step_setting (h : InvAll env s) (hi : i < s.N) {nt : Tokens}
    (hpc : (s.procs i).pc = .settingTokens nt) : InvAll env (step env s i) := by
  have hOwn : (s.procs i).pc.isOwner = true := by rw [hpc]; rfl
  have hrep : (s.procs i).replays = [] := by
    by_contra hne
    rcases h.replayDone i hi hne with h1 | h1 | h1 <;> rw [hpc] at h1 <;> exact PC.noConfusion h1
  rw [step_setting hi hpc]
  refine ⟨?_, ?_, ?_, ?_, ?_, ?_, ?_, ?_, ?_, ?_⟩
  · intro _ k hk
    dsimp only at hk ⊢
    by_cases hki : k = i
    · subst hki
      rw [updProc_self]
      rfl
    · rw [updProc_ne hki]
      by_cases hq : k ∈ s.g.failedQueue
      · rw [processQueue_mem hq]
        rfl
      · rw [processQueue_not_mem hq]
        by_cases hok : (s.procs k).pc.isOwner = true
        · exact absurd (h.ownerUnique k hk i hi hok hOwn) hki
        · simpa using hok
  · intro k hk l hl hok hol
    dsimp only at hk hl hok hol ⊢
    exfalso
    by_cases hki : k = i
    · subst hki
      rw [updProc_self] at hok
      simp [PC.isOwner] at hok
    · rw [updProc_ne hki] at hok
      by_cases hq : k ∈ s.g.failedQueue
      · rw [processQueue_mem hq] at hok
        simp [PC.isOwner] at hok
      · rw [processQueue_not_mem hq] at hok
        exact absurd (h.ownerUnique k hk i hi hok hOwn) hki
  · intro hff
    dsimp only at hff
    exact Bool.noConfusion hff
  · intro k hk hko
    dsimp only at hk hko ⊢
    by_cases hki : k = i
    · subst hki
      rw [updProc_self] at hko ⊢
      exact h.ownerRetry k hk (Or.inl hOwn)
    · rw [updProc_ne hki] at hko ⊢
      by_cases hq : k ∈ s.g.failedQueue
      · rw [processQueue_mem hq] at hko
        dsimp only at hko
        rcases hko with hko | hko
        · simp [PC.isOwner] at hko
        · exact PC.noConfusion hko
      · rw [processQueue_not_mem hq] at hko ⊢
        exact h.ownerRetry k hk hko
  · intro k
    dsimp only
    simp only [List.not_mem_nil, false_iff]
    rintro ⟨hk, hw⟩
    by_cases hki : k = i
    · subst hki
      rw [updProc_self] at hw
      exact PC.noConfusion hw
    · rw [updProc_ne hki] at hw
      by_cases hq : k ∈ s.g.failedQueue
      · rw [processQueue_mem hq] at hw
        exact PC.noConfusion hw
      · rw [processQueue_not_mem hq] at hw
        exact hq ((h.waitQueue k).2 ⟨hk, hw⟩)
  · intro k hk hw
    dsimp only at hk hw ⊢
    by_cases hki : k = i
    · subst hki
      rw [updProc_self] at hw
      exact PC.noConfusion hw
    · rw [updProc_ne hki] at hw ⊢
      by_cases hq : k ∈ s.g.failedQueue
      · rw [processQueue_mem hq] at hw
        exact PC.noConfusion hw
      · rw [processQueue_not_mem hq] at hw ⊢
        exact h.waitNoRetry k hk hw
  · intro k hk hkpc
    dsimp only at hk hkpc ⊢
    by_cases hki : k = i
    · subst hki
      rw [updProc_self] at hkpc
      exact PC.noConfusion hkpc
    · rw [updProc_ne hki] at hkpc ⊢
      by_cases hq : k ∈ s.g.failedQueue
      · rw [processQueue_mem hq] at hkpc
        exact PC.noConfusion hkpc
      · rw [processQueue_not_mem hq] at hkpc ⊢
        exact h.enteredFresh k hk hkpc
  · intro k hk hkpc
    dsimp only at hk hkpc ⊢
    by_cases hki : k = i
    · subst hki
      rw [updProc_self] at hkpc
      rcases hkpc with hkpc | ⟨tok, hkpc⟩ | ⟨e1, hkpc⟩ <;> exact PC.noConfusion hkpc
    · rw [updProc_ne hki] at hkpc ⊢
      by_cases hq : k ∈ s.g.failedQueue
      · rw [processQueue_mem hq]
        dsimp only
        exact h.qFresh k hk (Or.inl ((h.waitQueue k).1 hq).2)
      · rw [processQueue_not_mem hq] at hkpc ⊢
        exact h.qFresh k hk hkpc
  · intro k hk
    dsimp only at hk ⊢
    by_cases hki : k = i
    · subst hki
      rw [updProc_self]
      dsimp only
      rw [hrep]
      simp
    · rw [updProc_ne hki]
      by_cases hq : k ∈ s.g.failedQueue
      · rw [processQueue_mem hq]
        exact h.replayBound k hk
      · rw [processQueue_not_mem hq]
        exact h.replayBound k hk
  · intro k hk hkr
    dsimp only at hk hkr ⊢
    by_cases hki : k = i
    · subst hki
      rw [updProc_self]
      right
      left
      rfl
    · rw [updProc_ne hki] at hkr ⊢
      by_cases hq : k ∈ s.g.failedQueue
      · rw [processQueue_mem hq] at hkr
        dsimp only at hkr
        exact absurd (h.qFresh k hk (Or.inl ((h.waitQueue k).1 hq).2)) hkr
      · rw [processQueue_not_mem hq] at hkr ⊢
        exact h.replayDone k hk hkr

theorem invAll_step_clearing (h : InvAll env s) (hi : i < s.N) {e : String}
    (hpc : (s.procs i).pc = .clearingTokens e) : InvAll env (step env s i) := by
  have hOwn : (s.procs i).pc.isOwner = true := by rw [hpc]; rfl
  have hrep : (s.procs i).replays = [] := by
    by_contra hne
    rcases h.replayDone i hi hne with h1 | h1 | h1 <;> rw [hpc] at h1 <;> exact PC.noConfusion h1
  rw [step_clearing hi hpc]
  refine ⟨?_, ?_, ?_, ?_, ?_, ?_, ?_, ?_, ?_, ?_⟩
  · intro _ k hk
    dsimp only at hk ⊢
    by_cases hki : k = i
    · subst hki
      rw [updProc_self]
      rfl
    · rw [updProc_ne hki]
      by_cases hok : (s.procs k).pc.isOwner = true
      · exact absurd (h.ownerUnique k hk i hi hok hOwn) hki
      · simpa using hok
  · intro k hk l hl hok hol
    dsimp only at hk hl hok hol ⊢
    by_cases hki : k = i
    · subst hki
      rw [updProc_self] at hok
      simp [PC.isOwner] at hok
    · by_cases hli : l = i
      · subst hli
        rw [updProc_self] at hol
        simp [PC.isOwner] at hol
      · rw [updProc_ne hki] at hok
        rw [updProc_ne hli] at hol
        exact h.ownerUnique k hk l hl hok hol
  · intro hff
    dsimp only at hff
    exact Bool.noConfusion hff
  · intro k hk hko
    dsimp only at hk hko ⊢
    by_cases hki : k = i
    · subst hki
      rw [updProc_self] at hko
      rcases hko with hko | hko
      · simp [PC.isOwner] at hko
      · exact PC.noConfusion hko
    · rw [updProc_ne hki] at hko ⊢
      exact h.ownerRetry k hk hko
  · intro k
    dsimp only
    constructor
    · intro hmem
      obtain ⟨hk, hw⟩ := (h.waitQueue k).1 hmem
      have hki : k ≠ i := by
        intro e1
        subst e1
        rw [hpc] at hw
        exact PC.noConfusion hw
      rw [updProc_ne hki]
      exact ⟨hk, hw⟩
    · rintro ⟨hk, hw⟩
      by_cases hki : k = i
      · subst hki
        rw [updProc_self] at hw
        exact PC.noConfusion hw
      · rw [updProc_ne hki] at hw
        exact (h.waitQueue k).2 ⟨hk, hw⟩
  · intro k hk hw
    dsimp only at hk hw ⊢
    by_cases hki : k = i
    · subst hki
      rw [updProc_self] at hw
      exact PC.noConfusion hw
    · rw [updProc_ne hki] at hw ⊢
      exact h.waitNoRetry k hk hw
  · intro k hk hkpc
    dsimp only at hk hkpc ⊢
    by_cases hki : k = i
    · subst hki
      rw [updProc_self] at hkpc
      exact PC.noConfusion hkpc
    · rw [updProc_ne hki] at hkpc ⊢
      exact h.enteredFresh k hk hkpc
  · intro k hk hkpc
    dsimp only at hk hkpc ⊢
    by_cases hki : k = i
    · subst hki
      rw [updProc_self] at hkpc ⊢
      exact hrep
    · rw [updProc_ne hki] at hkpc ⊢
      exact h.qFresh k hk hkpc
  · intro k hk
    dsimp only at hk ⊢
    by_cases hki : k = i
    · subst hki
      rw [updProc_self]
      exact h.replayBound k hk
    · rw [updProc_ne hki]
      exact h.replayBound k hk
  · intro k hk hkr
    dsimp only at hk hkr ⊢
    by_cases hki : k = i
    · subst hki
      rw [updProc_self] at hkr
      exact absurd hrep hkr
    · rw [updProc_ne hki] at hkr ⊢
      exact h.replayDone k hk hkr

theorem invAll_step_terminalReplay (h : InvAll env s) (hi : i < s.N)
    (hnw : (s.procs i).pc ≠ .waiting) (hno : (s.procs i).pc.isOwner = false)
    (hne : (s.procs i).pc ≠ .entered)
    (hstep : step env s i =
      { s with procs := updProc s.procs i { s.procs i with pc := .done (outcomeOfReplay env i) } }) :
    InvAll env (step env s i) := by
  rw [hstep]
  refine ⟨?_, ?_, ?_, ?_, ?_, ?_, ?_, ?_, ?_, ?_⟩
  · intro hff k hk
    dsimp only at hff hk ⊢
    by_cases hki : k = i
    · subst hki
      rw [updProc_self]
      rfl
    · rw [updProc_ne hki]
      exact h.flagOwner hff k hk
  · intro k hk l hl hok hol
    dsimp only at hk hl hok hol ⊢
    by_cases hki : k = i
    · subst hki
      rw [updProc_self] at hok
      simp [PC.isOwner] at hok
    · by_cases hli : l = i
      · subst hli
        rw [updProc_self] at hol
        simp [PC.isOwner] at hol
      · rw [updProc_ne hki] at hok
        rw [updProc_ne hli] at hol
        exact h.ownerUnique k hk l hl hok hol
  · intro hft
    dsimp only at hft
    obtain ⟨k, hk, hko⟩ := h.flagHasOwner hft
    have hki : k ≠ i := by
      intro e1
      subst e1
      rw [hko] at hno
      exact Bool.noConfusion hno
    refine ⟨k, hk, ?_⟩
    dsimp only
    rw [updProc_ne hki]
    exact hko
  · intro k hk hko
    dsimp only at hk hko ⊢
    by_cases hki : k = i
    · subst hki
      rw [updProc_self] at hko
      rcases hko with hko | hko
      · simp [PC.isOwner] at hko
      · exact PC.noConfusion hko
    · rw [updProc_ne hki] at hko ⊢
      exact h.ownerRetry k hk hko
  · intro k
    dsimp only
    constructor
    · intro hmem
      obtain ⟨hk, hw⟩ := (h.waitQueue k).1 hmem
      have hki : k ≠ i := by
        intro e1
        subst e1
        exact hnw hw
      rw [updProc_ne hki]
      exact ⟨hk, hw⟩
    · rintro ⟨hk, hw⟩
      by_cases hki : k = i
      · subst hki
        rw [updProc_self] at hw
        exact PC.noConfusion hw
      · rw [updProc_ne hki] at hw
        exact (h.waitQueue k).2 ⟨hk, hw⟩
  · intro k hk hw
    dsimp only at hk hw ⊢
    by_cases hki : k = i
    · subst hki
      rw [updProc_self] at hw
      exact PC.noConfusion hw
    · rw [updProc_ne hki] at hw ⊢
      exact h.waitNoRetry k hk hw
  · intro k hk hkpc
    dsimp only at hk hkpc ⊢
    by_cases hki : k = i
    · subst hki
      rw [updProc_self] at hkpc
      exact PC.noConfusion hkpc
    · rw [updProc_ne hki] at hkpc ⊢
      exact h.enteredFresh k hk hkpc
  · intro k hk hkpc
    dsimp only at hk hkpc ⊢
    by_cases hki : k = i
    · subst hki
      rw [updProc_self] at hkpc
      rcases hkpc with hkpc | ⟨tok, hkpc⟩ | ⟨e1, hkpc⟩ <;> exact PC.noConfusion hkpc
    · rw [updProc_ne hki] at hkpc ⊢
      exact h.qFresh k hk hkpc
  · intro k hk
    dsimp only at hk ⊢
    by_cases hki : k = i
    · subst hki
      rw [updProc_self]
      exact h.replayBound k hk
    · rw [updProc_ne hki]
      exact h.replayBound k hk
  · intro k hk hkr
    dsimp only at hk hkr ⊢
    by_cases hki : k = i
    · subst hki
      rw [updProc_self]
      right
      right
      rfl
    · rw [updProc_ne hki] at hkr ⊢
      exact h.replayDone k hk hkr

theorem invAll_step_replayApi (h : InvAll env s) (hi : i < s.N)
    (hpc : (s.procs i).pc = .replayingApi) : InvAll env (step env s i) := by
  have hr : (s.procs i).retry = true := h.ownerRetry i hi (Or.inr hpc)
  have hno : (s.procs i).pc.isOwner = false := by rw [hpc]; rfl
  have hnw : (s.procs i).pc ≠ .waiting := by rw [hpc]; exact fun h1 => PC.noConfusion h1
  have hne : (s.procs i).pc ≠ .entered := by rw [hpc]; exact fun h1 => PC.noConfusion h1
  cases hres : env.replayResult i with
  | ok body =>
    refine invAll_step_terminalReplay h hi hnw hno hne ?_
    rw [step_replayApi_ok hi hpc hres]
    simp [outcomeOfReplay, hres]
  | err st =>
    refine invAll_step_terminalReplay h hi hnw hno hne ?_
    rw [step_replayApi_err hi hpc hres hr]
    simp [outcomeOfReplay, hres]

theorem invAll_step_replayRaw (h : InvAll env s) (hi : i < s.N)
    (hpc : (s.procs i).pc = .replayingRaw) : InvAll env (step env s i) := by
  have hno : (s.procs i).pc.isOwner = false := by rw [hpc]; rfl
  have hnw : (s.procs i).pc ≠ .waiting := by rw [hpc]; exact fun h1 => PC.noConfusion h1
  have hne : (s.procs i).pc ≠ .entered := by rw [hpc]; exact fun h1 => PC.noConfusion h1
  cases hres : env.replayResult i with
  | ok body =>
    refine invAll_step_terminalReplay h hi hnw hno hne ?_
    rw [step_replayRaw_ok hi hpc hres]
    simp [outcomeOfReplay, hres]
  | err st =>
    refine invAll_step_terminalReplay h hi hnw hno hne ?_
    rw [step_replayRaw_err hi hpc hres]
    simp [outcomeOfReplay, hres]

theorem invAll_step_resolved (h : InvAll env s) (hi : i < s.N) {tok : String}
    (hpc : (s.procs i).pc = .resolvedWith tok) : InvAll env (step env s i) := by
  have hrep : (s.procs i).replays = [] := h.qFresh i hi (Or.inr (Or.inl ⟨tok, hpc⟩))
  rw [step_resolved hi hpc]
  refine ⟨?_, ?_, ?_, ?_, ?_, ?_, ?_, ?_, ?_, ?_⟩
  · intro hff k hk
    dsimp only at hff hk ⊢
    by_cases hki : k = i
    · subst hki
      rw [updProc_self]
      rfl
    · rw [updProc_ne hki]
      exact h.flagOwner hff k hk
  · intro k hk l hl hok hol
    dsimp only at hk hl hok hol ⊢
    by_cases hki : k = i
    · subst hki
      rw [updProc_self] at hok
      simp [PC.isOwner] at hok
    · by_cases hli : l = i
      · subst hli
        rw [updProc_self] at hol
        simp [PC.isOwner] at hol
      · rw [updProc_ne hki] at hok
        rw [updProc_ne hli] at hol
        exact h.ownerUnique k hk l hl hok hol
  · intro hft
    dsimp only at hft
    obtain ⟨k, hk, hko⟩ := h.flagHasOwner hft
    have hki : k ≠ i := by
      intro e1
      subst e1
      rw [hpc] at hko
      simp [PC.isOwner] at hko
    refine ⟨k, hk, ?_⟩
    dsimp only
    rw [updProc_ne hki]
    exact hko
  · intro k hk hko
    dsimp only at hk hko ⊢
    by_cases hki : k = i
    · subst hki
      rw [updProc_self] at hko
      rcases hko with hko | hko
      · simp [PC.isOwner] at hko
      · exact PC.noConfusion hko
    · rw [updProc_ne hki] at hko ⊢
      exact h.ownerRetry k hk hko
  · intro k
    dsimp only
    constructor
    · intro hmem
      obtain ⟨hk, hw⟩ := (h.waitQueue k).1 hmem
      have hki : k ≠ i := by
        intro e1
        subst e1
        rw [hpc] at hw
        exact PC.noConfusion hw
      rw [updProc_ne hki]
      exact ⟨hk, hw⟩
    · rintro ⟨hk, hw⟩
      by_cases hki : k = i
      · subst hki
        rw [updProc_self] at hw
        exact PC.noConfusion hw
      · rw [updProc_ne hki] at hw
        exact (h.waitQueue k).2 ⟨hk, hw⟩
  · intro k hk hw
    dsimp only at hk hw ⊢
    by_cases hki : k = i
    · subst hki
      rw [updProc_self] at hw
      exact PC.noConfusion hw
    · rw [updProc_ne hki] at hw ⊢
      exact h.waitNoRetry k hk hw
  · intro k hk hkpc
    dsimp only at hk hkpc ⊢
    by_cases hki : k = i
    · subst hki
      rw [updProc_self] at hkpc
      exact PC.noConfusion hkpc
    · rw [updProc_ne hki] at hkpc ⊢
      exact h.enteredFresh k hk hkpc
  · intro k hk hkpc
    dsimp only at hk hkpc ⊢
    by_cases hki : k = i
    · subst hki
      rw [updProc_self] at hkpc
      rcases hkpc with hkpc | ⟨tok1, hkpc⟩ | ⟨e1, hkpc⟩ <;> exact PC.noConfusion hkpc
    · rw [updProc_ne hki] at hkpc ⊢
      exact h.qFresh k hk hkpc
  · intro k hk
    dsimp only at hk ⊢
    by_cases hki : k = i
    · subst hki
      rw [updProc_self]
      dsimp only
      rw [hrep]
      simp
    · rw [updProc_ne hki]
      exact h.replayBound k hk
  · intro k hk hkr
    dsimp only at hk hkr ⊢
    by_cases hki : k = i
    · subst hki
      rw [updProc_self]
      left
      rfl
    · rw [updProc_ne hki] at hkr ⊢
      exact h.replayDone k hk hkr

theorem invAll_step_rejected (h : InvAll env s) (hi : i < s.N) {e : String}
    (hpc : (s.procs i).pc = .rejectedWith e) : InvAll env (step env s i) := by
  have hrep : (s.procs i).replays = [] := h.qFresh i hi (Or.inr (Or.inr ⟨e, hpc⟩))
  rw [step_rejected hi hpc]
  refine ⟨?_, ?_, ?_, ?_, ?_, ?_, ?_, ?_, ?_, ?_⟩
  · intro hff k hk
    dsimp only at hff hk ⊢
    by_cases hki : k = i
    · subst hki
      rw [updProc_self]
      rfl
    · rw [updProc_ne hki]
      exact h.flagOwner hff k hk
  · intro k hk l hl hok hol
    dsimp only at hk hl hok hol ⊢
    by_cases hki : k = i
    · subst hki
      rw [updProc_self] at hok
      simp [PC.isOwner] at hok
    · by_cases hli : l = i
      · subst hli
        rw [updProc_self] at hol
        simp [PC.isOwner] at hol
      · rw [updProc_ne hki] at hok
        rw [updProc_ne hli] at hol
        exact h.ownerUnique k hk l hl hok hol
  · intro hft
    dsimp only at hft
    obtain ⟨k, hk, hko⟩ := h.flagHasOwner hft
    have hki : k ≠ i := by
      intro e1
      subst e1
      rw [hpc] at hko
      simp [PC.isOwner] at hko
    refine ⟨k, hk, ?_⟩
    dsimp only
    rw [updProc_ne hki]
    exact hko
  · intro k hk hko
    dsimp only at hk hko ⊢
    by_cases hki : k = i
    · subst hki
      rw [updProc_self] at hko
      rcases hko with hko | hko
      · simp [PC.isOwner] at hko
      · exact PC.noConfusion hko
    · rw [updProc_ne hki] at hko ⊢
      exact h.ownerRetry k hk hko
  · intro k
    dsimp only
    constructor
    · intro hmem
      obtain ⟨hk, hw⟩ := (h.waitQueue k).1 hmem
      have hki : k ≠ i := by
        intro e1
        subst e1
        rw [hpc] at hw
        exact PC.noConfusion hw
      rw [updProc_ne hki]
      exact ⟨hk, hw⟩
    · rintro ⟨hk, hw⟩
      by_cases hki : k = i
      · subst hki
        rw [updProc_self] at hw
        exact PC.noConfusion hw
      · rw [updProc_ne hki] at hw
        exact (h.waitQueue k).2 ⟨hk, hw⟩
  · intro k hk hw
    dsimp only at hk hw ⊢
    by_cases hki : k = i
    · subst hki
      rw [updProc_self] at hw
      exact PC.noConfusion hw
    · rw [updProc_ne hki] at hw ⊢
      exact h.waitNoRetry k hk hw
  · intro k hk hkpc
    dsimp only at hk hkpc ⊢
    by_cases hki : k = i
    · subst hki
      rw [updProc_self] at hkpc
      exact PC.noConfusion hkpc
    · rw [updProc_ne hki] at hkpc ⊢
      exact h.enteredFresh k hk hkpc
  · intro k hk hkpc
    dsimp only at hk hkpc ⊢
    by_cases hki : k = i
    · subst hki
      rw [updProc_self] at hkpc ⊢
      exact hrep
    · rw [updProc_ne hki] at hkpc ⊢
      exact h.qFresh k hk hkpc
  · intro k hk
    dsimp only at hk ⊢
    by_cases hki : k = i
    · subst hki
      rw [updProc_self]
      exact h.replayBound k hk
    · rw [updProc_ne hki]
      exact h.replayBound k hk
  · intro k hk hkr
    dsimp only at hk hkr ⊢
    by_cases hki : k = i
    · subst hki
      rw [updProc_self] at hkr
      exact absurd hrep hkr
    · rw [updProc_ne hki] at hkr ⊢
      exact h.replayDone k hk hkr

theorem invAll_step (h : InvAll env s) (i : Nat) : InvAll env (step env s i) := by
  by_cases hi : i < s.N
  · cases hpc : (s.procs i).pc with
    | entered => exact invAll_step_entered h hi hpc
    | waiting => rw [step_waiting hi hpc]; exact h
    | resolvedWith tok => exact invAll_step_resolved h hi hpc
    | rejectedWith e => exact invAll_step_rejected h hi hpc
    | gettingTokens => exact invAll_step_getting h hi hpc
    | refreshing t idx => exact invAll_step_refreshing h hi hpc
    | settingTokens nt => exact invAll_step_setting h hi hpc
    | clearingTokens e => exact invAll_step_clearing h hi hpc
    | replayingApi => exact invAll_step_replayApi h hi hpc
    | replayingRaw => exact invAll_step_replayRaw h hi hpc
    | done o => rw [step_done hi hpc]; exact h
  · rw [step_oob hi]; exact h

theorem invAll_init {env : Env} {N : Nat} {stored0 : Option Tokens} {h0 : Option String} :
    InvAll env (initSys N stored0 h0) := by
  refine ⟨?_, ?_, ?_, ?_, ?_, ?_, ?_, ?_, ?_, ?_⟩ <;>
    simp [initSys, initProc, PC.isOwner]

theorem invAll_run {env : Env} {s : Sys} (h : InvAll env s) (sched : List Nat) :
    InvAll env (run env s sched) :=
  run_preserve (InvAll env) (fun _ i h1 => invAll_step h1 i) sched s h

end Preservation

section EntryPhase

variable {env : Env} {N : Nat} {t0 : Tokens} {h0 : Option String}

theorem queueAll_one : queueAll 1 = [] := rfl

theorem entry_partial (env : Env) (N : Nat) (t0 : Tokens) (h0 : Option String) :
    ∀ k, 1 ≤ k → k ≤ N →
      EntryPartial N k t0 h0 (run env (initSys N (some t0) h0) (List.range k)) := by
  intro k
  induction k with
  | zero => intro h1 _; exact absurd h1 (by simp)
  | succ k ih =>
    intro _ hkN
    rcases Nat.eq_zero_or_pos k with hk0 | hkpos
    · subst hk0
      have hN1 : 0 < N := hkN
      have hstep : run env (initSys N (some t0) h0) (List.range 1) =
          step env (initSys N (some t0) h0) 0 := rfl
      rw [hstep, @step_entered_start env (initSys N (some t0) h0) 0 hN1 rfl rfl rfl]
      refine ⟨rfl, rfl, rfl, rfl, rfl, rfl, rfl, ?_, ?_, ?_, ?_, ?_⟩
      · dsimp only
        rw [updProc_self]
      · dsimp only
        rw [updProc_self]
      · dsimp only
        rw [updProc_self]
        rfl
      · intro j hj0 hj1
        omega
      · intro j hj1 hjN
        have hj0 : j ≠ 0 := by omega
        dsimp only
        rw [updProc_ne hj0]
        exact ⟨rfl, rfl, rfl⟩
    · have hkN' : k ≤ N := Nat.le_of_succ_le hkN
      have ihk := ih hkpos hkN'
      set sk := run env (initSys N (some t0) h0) (List.range k) with hsk
      obtain ⟨hN, hflag, hq, hh, hst, hrc, hcc, hpc0, hr0, hrep0, hmid, hrest⟩ := ihk
      have hkltN : k < N := hkN
      have hkself := hrest k (Nat.le_refl k) hkltN
      have hkN2 : k < sk.N := by rw [hN]; exact hkltN
      have hrun : run env (initSys N (some t0) h0) (List.range (k + 1)) = step env sk k := by
        rw [List.range_succ, run_append, ← hsk]
        rfl
      rw [hrun, step_entered_enqueue hkN2 hkself.1 hkself.2.1 hflag]
      have hk0 : k ≠ 0 := by omega
      refine ⟨hN, hflag, ?_, hh, hst, hrc, hcc, ?_, ?_, ?_, ?_, ?_⟩
      · dsimp only
        rw [hq, queueAll_succ hk0]
      · dsimp only
        rw [updProc_ne (Ne.symm hk0)]
        exact hpc0
      · dsimp only
        rw [updProc_ne (Ne.symm hk0)]
        exact hr0
      · dsimp only
        rw [updProc_ne (Ne.symm hk0)]
        exact hrep0
      · intro j hj0 hjk1
        dsimp only
        by_cases hjk : j = k
        · subst hjk
          rw [updProc_self]
          exact ⟨rfl, hkself.2.1, hkself.2.2⟩
        · rw [updProc_ne hjk]
          exact hmid j hj0 (by omega)
      · intro j hjge hjN
        have hjk : j ≠ k := by omega
        dsimp only
        rw [updProc_ne hjk]
        exact hrest j (by omega) hjN

theorem entry_done (env : Env) (N : Nat) (t0 : Tokens) (h0 : Option String) (hN : 1 ≤ N) :
    EntryDone N t0 h0 (run env (initSys N (some t0) h0) (List.range N)) :=
  entry_partial env N t0 h0 N hN (Nat.le_refl N)

end EntryPhase

section SingleFlight

variable {env : Env} {N : Nat} {t0 : Tokens} {h0 : Option String} {s : Sys} {i : Nat}

theorem oneInv_frame (h : OneInv N t0 s) (hi : i < s.N) {p' : PState}
    (hstep : step env s i = { s with procs := updProc s.procs i p' })
    (hpne : p'.pc ≠ .entered) (hpng : p'.pc ≠ .gettingTokens)
    (hpno : p'.pc.isOwner = false) (hpna : p'.pc ≠ .replayingApi)
    (hiold : (s.procs i).pc.isOwner = false) (hioldg : (s.procs i).pc ≠ .gettingTokens) :
    OneInv N t0 (step env s i) := by
  obtain ⟨hN, hent, hretry, hdisj⟩ := h
  rw [hstep]
  refine ⟨hN, ?_, ?_, ?_⟩
  · intro k hk
    dsimp only
    by_cases hki : k = i
    · subst hki
      rw [updProc_self]
      exact hpne
    · rw [updProc_ne hki]
      exact hent k hk
  · intro k hk hko
    dsimp only at hko ⊢
    by_cases hki : k = i
    · subst hki
      rw [updProc_self] at hko ⊢
      rcases hko with hko | hko
      · rw [hko] at hpno
        exact Bool.noConfusion hpno
      · exact absurd hko hpna
    · rw [updProc_ne hki] at hko ⊢
      exact hretry k hk hko
  · rcases hdisj with ⟨hrc, hpc0, hst, honly⟩ | ⟨hrc, hng⟩
    · have hi0 : i ≠ 0 := by
        intro e1
        subst e1
        rw [hpc0] at hioldg
        exact hioldg rfl
      refine Or.inl ⟨hrc, ?_, hst, ?_⟩
      · dsimp only
        rw [updProc_ne (Ne.symm hi0)]
        exact hpc0
      · intro k hk hko
        dsimp only at hko
        by_cases hki : k = i
        · subst hki
          rw [updProc_self] at hko
          rw [hko] at hpno
          exact Bool.noConfusion hpno
        · rw [updProc_ne hki] at hko
          exact honly k hk hko
    · refine Or.inr ⟨hrc, ?_⟩
      intro k hk
      dsimp only
      by_cases hki : k = i
      · subst hki
        rw [updProc_self]
        exact hpng
      · rw [updProc_ne hki]
        exact hng k hk

theorem oneInv_step (ht : t0.refresh ≠ "") (h : OneInv N t0 s) (i : Nat) :
    OneInv N t0 (step env s i) := by
  by_cases hi : i < s.N
  swap
  · rw [step_oob hi]; exact h
  obtain ⟨hN, hent, hretry, hdisj⟩ := h
  have hiN : i < N := hN ▸ hi
  cases hpc : (s.procs i).pc with
  | entered => exact absurd hpc (hent i hiN)
  | waiting => rw [step_waiting hi hpc]; exact ⟨hN, hent, hretry, hdisj⟩
  | done o => rw [step_done hi hpc]; exact ⟨hN, hent, hretry, hdisj⟩
  | gettingTokens =>
    rcases hdisj with ⟨hrc, hpc0, hst, honly⟩ | ⟨hrc, hng⟩
    · have hi0 : i = 0 := honly i hiN (by rw [hpc]; rfl)
      subst hi0
      rw [step_getting_some hi hpc hst ht]
      refine ⟨hN, ?_, ?_, Or.inr ⟨?_, ?_⟩⟩
      · intro k hk
        dsimp only
        by_cases hk0 : k = 0
        · subst hk0
          rw [updProc_self]
          exact fun h1 => PC.noConfusion h1
        · rw [updProc_ne hk0]
          exact hent k hk
      · intro k hk hko
        dsimp only at hko ⊢
        by_cases hk0 : k = 0
        · subst hk0
          rw [updProc_self] at hko ⊢
          exact hretry 0 hk (Or.inl (by rw [hpc]; rfl))
        · rw [updProc_ne hk0] at hko ⊢
          exact hretry k hk hko
      · dsimp only
        rw [hrc]
      · intro k hk
        dsimp only
        by_cases hk0 : k = 0
        · subst hk0
          rw [updProc_self]
          exact fun h1 => PC.noConfusion h1
        · rw [updProc_ne hk0]
          intro hgk
          exact hk0 (honly k hk (by rw [hgk]; rfl))
    · exact absurd hpc (hng i hiN)
  | refreshing t idx =>
    rcases hdisj with ⟨hrc, hpc0, hst, honly⟩ | ⟨hrc, hng⟩
    · have hi0 : i = 0 := honly i hiN (by rw [hpc]; rfl)
      subst hi0
      rw [hpc] at hpc0
      exact PC.noConfusion hpc0
    · cases hres : env.refreshResult idx with
      | ok na =>
        rw [step_refreshing_ok hi hpc hres]
        refine ⟨hN, ?_, ?_, Or.inr ⟨hrc, ?_⟩⟩
        · intro k hk
          dsimp only
          by_cases hki : k = i
          · subst hki
            rw [updProc_self]
            exact fun h1 => PC.noConfusion h1
          · rw [updProc_ne hki]
            exact hent k hk
        · intro k hk hko
          dsimp only at hko ⊢
          by_cases hki : k = i
          · subst hki
            rw [updProc_self] at hko ⊢
            exact hretry k hk (Or.inl (by rw [hpc]; rfl))
          · rw [updProc_ne hki] at hko ⊢
            exact hretry k hk hko
        · intro k hk
          dsimp only
          by_cases hki : k = i
          · subst hki
            rw [updProc_self]
            exact fun h1 => PC.noConfusion h1
          · rw [updProc_ne hki]
            exact hng k hk
      | error e =>
        rw [step_refreshing_err hi hpc hres]
        refine ⟨hN, ?_, ?_, Or.inr ⟨hrc, ?_⟩⟩
        · intro k hk
          dsimp only
          by_cases hki : k = i
          · subst hki
            rw [updProc_self]
            exact fun h1 => PC.noConfusion h1
          · rw [updProc_ne hki]
            by_cases hq : k ∈ s.g.failedQueue
            · rw [processQueue_mem hq]
              exact fun h1 => PC.noConfusion h1
            · rw [processQueue_not_mem hq]
              exact hent k hk
        · intro k hk hko
          dsimp only at hko ⊢
          by_cases hki : k = i
          · subst hki
            rw [updProc_self] at hko ⊢
            exact hretry k hk (Or.inl (by rw [hpc]; rfl))
          · rw [updProc_ne hki] at hko ⊢
            by_cases hq : k ∈ s.g.failedQueue
            · rw [processQueue_mem hq] at hko
              dsimp only at hko
              rcases hko with hko | hko
              · simp [PC.isOwner] at hko
              · exact PC.noConfusion hko
            · rw [processQueue_not_mem hq] at hko ⊢
              exact hretry k hk hko
        · intro k hk
          dsimp only
          by_cases hki : k = i
          · subst hki
            rw [updProc_self]
            exact fun h1 => PC.noConfusion h1
          · rw [updProc_ne hki]
            by_cases hq : k ∈ s.g.failedQueue
            · rw [processQueue_mem hq]
              exact fun h1 => PC.noConfusion h1
            · rw [processQueue_not_mem hq]
              exact hng k hk
  | settingTokens nt =>
    rcases hdisj with ⟨hrc, hpc0, hst, honly⟩ | ⟨hrc, hng⟩
    · have hi0 : i = 0 := honly i hiN (by rw [hpc]; rfl)
      subst hi0
      rw [hpc] at hpc0
      exact PC.noConfusion hpc0
    · rw [step_setting hi hpc]
      refine ⟨hN, ?_, ?_, Or.inr ⟨hrc, ?_⟩⟩
      · intro k hk
        dsimp only
        by_cases hki : k = i
        · subst hki
          rw [updProc_self]
          exact fun h1 => PC.noConfusion h1
        · rw [updProc_ne hki]
          by_cases hq : k ∈ s.g.failedQueue
          · rw [processQueue_mem hq]
            exact fun h1 => PC.noConfusion h1
          · rw [processQueue_not_mem hq]
            exact hent k hk
      · intro k hk hko
        dsimp only at hko ⊢
        by_cases hki : k = i
        · subst hki
          rw [updProc_self] at hko ⊢
          exact hretry k hk (Or.inl (by rw [hpc]; rfl))
        · rw [updProc_ne hki] at hko ⊢
          by_cases hq : k ∈ s.g.failedQueue
          · rw [processQueue_mem hq] at hko
            dsimp only at hko
            rcases hko with hko | hko
            · simp [PC.isOwner] at hko
            · exact PC.noConfusion hko
          · rw [processQueue_not_mem hq] at hko ⊢
            exact hretry k hk hko
      · intro k hk
        dsimp only
        by_cases hki : k = i
        · subst hki
          rw [updProc_self]
          exact fun h1 => PC.noConfusion h1
        · rw [updProc_ne hki]
          by_cases hq : k ∈ s.g.failedQueue
          · rw [processQueue_mem hq]
            exact fun h1 => PC.noConfusion h1
          · rw [processQueue_not_mem hq]
            exact hng k hk
  | clearingTokens e =>
    rcases hdisj with ⟨hrc, hpc0, hst, honly⟩ | ⟨hrc, hng⟩
    · have hi0 : i = 0 := honly i hiN (by rw [hpc]; rfl)
      subst hi0
      rw [hpc] at hpc0
      exact PC.noConfusion hpc0
    · rw [step_clearing hi hpc]
      refine ⟨hN, ?_, ?_, Or.inr ⟨hrc, ?_⟩⟩
      · intro k hk
        dsimp only
        by_cases hki : k = i
        · subst hki
          rw [updProc_self]
          exact fun h1 => PC.noConfusion h1
        · rw [updProc_ne hki]
          exact hent k hk
      · intro k hk hko
        dsimp only at hko ⊢
        by_cases hki : k = i
        · subst hki
          rw [updProc_self] at hko
          rcases hko with hko | hko
          · simp [PC.isOwner] at hko
          · exact PC.noConfusion hko
        · rw [updProc_ne hki] at hko ⊢
          exact hretry k hk hko
      · intro k hk
        dsimp only
        by_cases hki : k = i
        · subst hki
          rw [updProc_self]
          exact fun h1 => PC.noConfusion h1
        · rw [updProc_ne hki]
          exact hng k hk
  | replayingApi =>
    have hr : (s.procs i).retry = true := hretry i hiN (Or.inr hpc)
    have hiold : (s.procs i).pc.isOwner = false := by rw [hpc]; rfl
    have hioldg : (s.procs i).pc ≠ .gettingTokens := by
      rw [hpc]; exact fun h1 => PC.noConfusion h1
    cases hres : env.replayResult i with
    | ok body =>
      exact oneInv_frame ⟨hN, hent, hretry, hdisj⟩ hi (step_replayApi_ok hi hpc hres)
        (fun h1 => PC.noConfusion h1) (fun h1 => PC.noConfusion h1) rfl
        (fun h1 => PC.noConfusion h1) hiold hioldg
    | err st =>
      exact oneInv_frame ⟨hN, hent, hretry, hdisj⟩ hi (step_replayApi_err hi hpc hres hr)
        (fun h1 => PC.noConfusion h1) (fun h1 => PC.noConfusion h1) rfl
        (fun h1 => PC.noConfusion h1) hiold hioldg
  | replayingRaw =>
    have hiold : (s.procs i).pc.isOwner = false := by rw [hpc]; rfl
    have hioldg : (s.procs i).pc ≠ .gettingTokens := by
      rw [hpc]; exact fun h1 => PC.noConfusion h1
    cases hres : env.replayResult i with
    | ok body =>
      exact oneInv_frame ⟨hN, hent, hretry, hdisj⟩ hi (step_replayRaw_ok hi hpc hres)
        (fun h1 => PC.noConfusion h1) (fun h1 => PC.noConfusion h1) rfl
        (fun h1 => PC.noConfusion h1) hiold hioldg
    | err st =>
      exact oneInv_frame ⟨hN, hent, hretry, hdisj⟩ hi (step_replayRaw_err hi hpc hres)
        (fun h1 => PC.noConfusion h1) (fun h1 => PC.noConfusion h1) rfl
        (fun h1 => PC.noConfusion h1) hiold hioldg
  | resolvedWith tok =>
    have hiold : (s.procs i).pc.isOwner = false := by rw [hpc]; rfl
    have hioldg : (s.procs i).pc ≠ .gettingTokens := by
      rw [hpc]; exact fun h1 => PC.noConfusion h1
    exact oneInv_frame ⟨hN, hent, hretry, hdisj⟩ hi (step_resolved hi hpc)
      (fun h1 => PC.noConfusion h1) (fun h1 => PC.noConfusion h1) rfl
      (fun h1 => PC.noConfusion h1) hiold hioldg
  | rejectedWith e =>
    have hiold : (s.procs i).pc.isOwner = false := by rw [hpc]; rfl
    have hioldg : (s.procs i).pc ≠ .gettingTokens := by
      rw [hpc]; exact fun h1 => PC.noConfusion h1
    exact oneInv_frame ⟨hN, hent, hretry, hdisj⟩ hi (step_rejected hi hpc)
      (fun h1 => PC.noConfusion h1) (fun h1 => PC.noConfusion h1) rfl
      (fun h1 => PC.noConfusion h1) hiold hioldg

theorem entryDone_oneInv (h : EntryDone N t0 h0 s) : OneInv N t0 s := by
  obtain ⟨hN, hflag, hq, hh, hst, hrc, hcc, hpc0, hr0, hrep0, hmid, hrest⟩ := h
  refine ⟨hN, ?_, ?_, Or.inl ⟨hrc, hpc0, hst, ?_⟩⟩
  · intro k hk
    by_cases hk0 : k = 0
    · subst hk0
      rw [hpc0]
      exact fun h1 => PC.noConfusion h1
    · rw [(hmid k (Nat.pos_of_ne_zero hk0) hk).1]
      exact fun h1 => PC.noConfusion h1
  · intro k hk hko
    by_cases hk0 : k = 0
    · subst hk0
      exact hr0
    · rw [(hmid k (Nat.pos_of_ne_zero hk0) hk).1] at hko
      rcases hko with hko | hko
      · simp [PC.isOwner] at hko
      · exact PC.noConfusion hko
  · intro k hk hko
    by_cases hk0 : k = 0
    · exact hk0
    · rw [(hmid k (Nat.pos_of_ne_zero hk0) hk).1] at hko
      simp [PC.isOwner] at hko

theorem oneInv_run (ht : t0.refresh ≠ "") (h : OneInv N t0 s) (sched : List Nat) :
    OneInv N t0 (run env s sched) :=
  run_preserve (OneInv N t0) (fun _ i h1 => oneInv_step ht h1 i) sched s h

end SingleFlight

section SuccessCycle

variable {env : Env} {N : Nat} {t0 : Tokens} {h0 : Option String} {na : String} {s : Sys}

theorem succInv_step (ht : t0.refresh ≠ "") (hna : na ≠ "")
    (hres : env.refreshResult 0 = .ok na) (h : SuccInv env N t0 h0 na s) (i : Nat) :
    SuccInv env N t0 h0 na (step env s i) := by
  by_cases hi : i < s.N
  swap
  · rw [step_oob hi]; exact h
  rcases h with hpre | hpost
  · obtain ⟨hN, hflag, hq, hh, hst, hcc, hdisj, hr0, hrep0, hwait⟩ := hpre
    have hiN : i < N := hN ▸ hi
    by_cases hi0 : i = 0
    · subst hi0
      rcases hdisj with ⟨hpc0, hrc⟩ | ⟨hpc0, hrc⟩ | ⟨hpc0, hrc⟩
      · rw [step_getting_some hi hpc0 hst ht]
        left
        refine ⟨hN, hflag, hq, hh, hst, hcc, Or.inr (Or.inl ⟨?_, ?_⟩), ?_, ?_, ?_⟩
        · dsimp only
          rw [updProc_self]
          dsimp only
          rw [hrc]
        · dsimp only
          rw [hrc]
        · dsimp only
          rw [updProc_self]
          exact hr0
        · dsimp only
          rw [updProc_self]
          exact hrep0
        · intro j hj0 hjN
          dsimp only
          rw [updProc_ne (Nat.pos_iff_ne_zero.1 hj0)]
          exact hwait j hj0 hjN
      · rw [step_refreshing_ok hi hpc0 hres]
        left
        refine ⟨hN, hflag, hq, hh, hst, hcc, Or.inr (Or.inr ⟨?_, hrc⟩), ?_, ?_, ?_⟩
        · dsimp only
          rw [updProc_self]
        · dsimp only
          rw [updProc_self]
          exact hr0
        · dsimp only
          rw [updProc_self]
          exact hrep0
        · intro j hj0 hjN
          dsimp only
          rw [updProc_ne (Nat.pos_iff_ne_zero.1 hj0)]
          exact hwait j hj0 hjN
      · rw [step_setting hi hpc0]
        right
        refine ⟨hN, rfl, rfl, ?_, rfl, hrc, hcc, ?_, ?_, ?_, ?_⟩
        · dsimp only
          simp [setAuthToken, hna]
        · dsimp only
          rw [updProc_self]
          exact hr0
        · dsimp only
          rw [updProc_self]
          dsimp only
          rw [hrep0]
          rfl
        · left
          dsimp only
          rw [updProc_self]
        · intro j hj0 hjN
          have hj0' : j ≠ 0 := Nat.pos_iff_ne_zero.1 hj0
          have hjq : j ∈ s.g.failedQueue := by
            rw [hq]
            exact mem_queueAll.2 ⟨hjN, hj0'⟩
          left
          dsimp only
          rw [updProc_ne hj0', processQueue_mem hjq]
          exact ⟨rfl, (hwait j hj0 hjN).2⟩
    · have hpcw := hwait i (Nat.pos_of_ne_zero hi0) hiN
      rw [step_waiting hi hpcw.1]
      exact Or.inl ⟨hN, hflag, hq, hh, hst, hcc, hdisj, hr0, hrep0, hwait⟩
  · obtain ⟨hN, hflag, hq, hh, hst, hrc, hcc, hr0, hrep0, hpc0, hrest⟩ := hpost
    have hiN : i < N := hN ▸ hi
    by_cases hi0 : i = 0
    · subst hi0
      rcases hpc0 with hpc0 | hpc0
      · cases hres2 : env.replayResult 0 with
        | ok body =>
          rw [step_replayApi_ok hi hpc0 hres2]
          right
          refine ⟨hN, hflag, hq, hh, hst, hrc, hcc, ?_, ?_, Or.inr ?_, ?_⟩
          · dsimp only
            rw [updProc_self]
            exact hr0
          · dsimp only
            rw [updProc_self]
            exact hrep0
          · dsimp only
            rw [updProc_self]
            dsimp only
            simp [outcomeOfReplay, hres2]
          · intro j hj0 hjN
            dsimp only
            rw [updProc_ne (Nat.pos_iff_ne_zero.1 hj0)]
            exact hrest j hj0 hjN
        | err st =>
          rw [step_replayApi_err hi hpc0 hres2 hr0]
          right
          refine ⟨hN, hflag, hq, hh, hst, hrc, hcc, ?_, ?_, Or.inr ?_, ?_⟩
          · dsimp only
            rw [updProc_self]
            exact hr0
          · dsimp only
            rw [updProc_self]
            exact hrep0
          · dsimp only
            rw [updProc_self]
            dsimp only
            simp [outcomeOfReplay, hres2]
          · intro j hj0 hjN
            dsimp only
            rw [updProc_ne (Nat.pos_iff_ne_zero.1 hj0)]
            exact hrest j hj0 hjN
      · rw [step_done hi hpc0]
        exact Or.inr ⟨hN, hflag, hq, hh, hst, hrc, hcc, hr0, hrep0, Or.inr hpc0, hrest⟩
    · have hi0' : 0 < i := Nat.pos_of_ne_zero hi0
      rcases hrest i hi0' hiN with ⟨hpci, hrepi⟩ | ⟨hpci, hrepi⟩ | ⟨hpci, hrepi⟩
      · rw [step_resolved hi hpci]
        right
        refine ⟨hN, hflag, hq, hh, hst, hrc, hcc, ?_, ?_, ?_, ?_⟩
        · dsimp only
          rw [updProc_ne (Ne.symm hi0)]
          exact hr0
        · dsimp only
          rw [updProc_ne (Ne.symm hi0)]
          exact hrep0
        · dsimp only
          rcases hpc0 with hpc0 | hpc0
          · left
            rw [updProc_ne (Ne.symm hi0)]
            exact hpc0
          · right
            rw [updProc_ne (Ne.symm hi0)]
            exact hpc0
        · intro j hj0 hjN
          dsimp only
          by_cases hji : j = i
          · subst hji
            rw [updProc_self]
            right
            left
            dsimp only
            rw [hrepi]
            exact ⟨rfl, rfl⟩
          · rw [updProc_ne hji]
            exact hrest j hj0 hjN
      · cases hres2 : env.replayResult i with
        | ok body =>
          rw [step_replayRaw_ok hi hpci hres2]
          right
          refine ⟨hN, hflag, hq, hh, hst, hrc, hcc, ?_, ?_, ?_, ?_⟩
          · dsimp only
            rw [updProc_ne (Ne.symm hi0)]
            exact hr0
          · dsimp only
            rw [updProc_ne (Ne.symm hi0)]
            exact hrep0
          · dsimp only
            rcases hpc0 with hpc0 | hpc0
            · left
              rw [updProc_ne (Ne.symm hi0)]
              exact hpc0
            · right
              rw [updProc_ne (Ne.symm hi0)]
              exact hpc0
          · intro j hj0 hjN
            dsimp only
            by_cases hji : j = i
            · subst hji
              rw [updProc_self]
              right
              right
              dsimp only
              refine ⟨?_, hrepi⟩
              simp [outcomeOfReplay, hres2]
            · rw [updProc_ne hji]
              exact hrest j hj0 hjN
        | err st =>
          rw [step_replayRaw_err hi hpci hres2]
          right
          refine ⟨hN, hflag, hq, hh, hst, hrc, hcc, ?_, ?_, ?_, ?_⟩
          · dsimp only
            rw [updProc_ne (Ne.symm hi0)]
            exact hr0
          · dsimp only
            rw [updProc_ne (Ne.symm hi0)]
            exact hrep0
          · dsimp only
            rcases hpc0 with hpc0 | hpc0
            · left
              rw [updProc_ne (Ne.symm hi0)]
              exact hpc0
            · right
              rw [updProc_ne (Ne.symm hi0)]
              exact hpc0
          · intro j hj0 hjN
            dsimp only
            by_cases hji : j = i
            · subst hji
              rw [updProc_self]
              right
              right
              dsimp only
              refine ⟨?_, hrepi⟩
              simp [outcomeOfReplay, hres2]
            · rw [updProc_ne hji]
              exact hrest j hj0 hjN
      · rw [step_done hi hpci]
        exact Or.inr ⟨hN, hflag, hq, hh, hst, hrc, hcc, hr0, hrep0, hpc0, hrest⟩

theorem entryDone_succPre (h : EntryDone N t0 h0 s) : SuccPre N t0 h0 na s := by
  obtain ⟨hN, hflag, hq, hh, hst, hrc, hcc, hpc0, hr0, hrep0, hmid, _⟩ := h
  exact ⟨hN, hflag, hq, hh, hst, hcc, Or.inl ⟨hpc0, hrc⟩, hr0, hrep0,
    fun j hj0 hjN => ⟨(hmid j hj0 hjN).1, (hmid j hj0 hjN).2.2⟩⟩

theorem succInv_run (ht : t0.refresh ≠ "") (hna : na ≠ "")
    (hres : env.refreshResult 0 = .ok na) (h : SuccInv env N t0 h0 na s) (sched : List Nat) :
    SuccInv env N t0 h0 na (run env s sched) :=
  run_preserve (SuccInv env N t0 h0 na) (fun _ i h1 => succInv_step ht hna hres h1 i) sched s h

end SuccessCycle

section FailureCycle

variable {env : Env} {N : Nat} {t0 : Tokens} {h0 : Option String} {e : String} {s : Sys}

theorem failInv_step (ht : t0.refresh ≠ "")
    (hres : env.refreshResult 0 = .error e) (h : FailInv N t0 h0 e s) (i : Nat) :
    FailInv N t0 h0 e (step env s i) := by
  by_cases hi : i < s.N
  swap
  · rw [step_oob hi]; exact h
  rcases h with hpre | hmid | hpost
  · obtain ⟨hN, hflag, hq, hh, hst, hcc, hdisj, hr0, hrep0, hwait⟩ := hpre
    have hiN : i < N := hN ▸ hi
    by_cases hi0 : i = 0
    · subst hi0
      rcases hdisj with ⟨hpc0, hrc⟩ | ⟨hpc0, hrc⟩
      · rw [step_getting_some hi hpc0 hst ht]
        left
        refine ⟨hN, hflag, hq, hh, hst, hcc, Or.inr ⟨?_, ?_⟩, ?_, ?_, ?_⟩
        · dsimp only
          rw [updProc_self]
          dsimp only
          rw [hrc]
        · dsimp only
          rw [hrc]
        · dsimp only
          rw [updProc_self]
          exact hr0
        · dsimp only
          rw [updProc_self]
          exact hrep0
        · intro j hj0 hjN
          dsimp only
          rw [updProc_ne (Nat.pos_iff_ne_zero.1 hj0)]
          exact hwait j hj0 hjN
      · rw [step_refreshing_err hi hpc0 hres]
        right
        left
        refine ⟨hN, hflag, rfl, hh, hst, hrc, ?_, ?_, ?_, ?_⟩
        · dsimp only
          rw [hcc]
        · dsimp only
          rw [updProc_self]
        · dsimp only
          rw [updProc_self]
          exact hrep0
        · intro j hj0 hjN
          have hj0' : j ≠ 0 := Nat.pos_iff_ne_zero.1 hj0
          have hjq : j ∈ s.g.failedQueue := by
            rw [hq]
            exact mem_queueAll.2 ⟨hjN, hj0'⟩
          dsimp only
          rw [updProc_ne hj0', processQueue_mem hjq]
          exact ⟨Or.inl rfl, (hwait j hj0 hjN).2⟩
    · have hpcw := hwait i (Nat.pos_of_ne_zero hi0) hiN
      rw [step_waiting hi hpcw.1]
      exact Or.inl ⟨hN, hflag, hq, hh, hst, hcc, hdisj, hr0, hrep0, hwait⟩
  · obtain ⟨hN, hflag, hq, hh, hst, hrc, hcc, hpc0, hrep0, hrest⟩ := hmid
    have hiN : i < N := hN ▸ hi
    by_cases hi0 : i = 0
    · subst hi0
      rw [step_clearing hi hpc0]
      right
      right
      refine ⟨hN, rfl, hq, rfl, rfl, hrc, hcc, ?_, ?_, ?_⟩
      · dsimp only
        rw [updProc_self]
      · dsimp only
        rw [updProc_self]
        exact hrep0
      · intro j hj0 hjN
        dsimp only
        rw [updProc_ne (Nat.pos_iff_ne_zero.1 hj0)]
        exact hrest j hj0 hjN
    · have hi0' : 0 < i := Nat.pos_of_ne_zero hi0
      rcases hrest i hi0' hiN with ⟨hpci | hpci, hrepi⟩
      · rw [step_rejected hi hpci]
        right
        left
        refine ⟨hN, hflag, hq, hh, hst, hrc, hcc, ?_, ?_, ?_⟩
        · dsimp only
          rw [updProc_ne (Ne.symm hi0)]
          exact hpc0
        · dsimp only
          rw [updProc_ne (Ne.symm hi0)]
          exact hrep0
        · intro j hj0 hjN
          dsimp only
          by_cases hji : j = i
          · subst hji
            rw [updProc_self]
            exact ⟨Or.inr rfl, hrepi⟩
          · rw [updProc_ne hji]
            exact hrest j hj0 hjN
      · rw [step_done hi hpci]
        exact Or.inr (Or.inl ⟨hN, hflag, hq, hh, hst, hrc, hcc, hpc0, hrep0, hrest⟩)
  · obtain ⟨hN, hflag, hq, hh, hst, hrc, hcc, hpc0, hrep0, hrest⟩ := hpost
    have hiN : i < N := hN ▸ hi
    by_cases hi0 : i = 0
    · subst hi0
      rw [step_done hi hpc0]
      exact Or.inr (Or.inr ⟨hN, hflag, hq, hh, hst, hrc, hcc, hpc0, hrep0, hrest⟩)
    · have hi0' : 0 < i := Nat.pos_of_ne_zero hi0
      rcases hrest i hi0' hiN with ⟨hpci | hpci, hrepi⟩
      · rw [step_rejected hi hpci]
        right
        right
        refine ⟨hN, hflag, hq, hh, hst, hrc, hcc, ?_, ?_, ?_⟩
        · dsimp only
          rw [updProc_ne (Ne.symm hi0)]
          exact hpc0
        · dsimp only
          rw [updProc_ne (Ne.symm hi0)]
          exact hrep0
        · intro j hj0 hjN
          dsimp only
          by_cases hji : j = i
          · subst hji
            rw [updProc_self]
            exact ⟨Or.inr rfl, hrepi⟩
          · rw [updProc_ne hji]
            exact hrest j hj0 hjN
      · rw [step_done hi hpci]
        exact Or.inr (Or.inr ⟨hN, hflag, hq, hh, hst, hrc, hcc, hpc0, hrep0, hrest⟩)

theorem entryDone_failPre (h : EntryDone N t0 h0 s) : FailPre N t0 h0 s := by
  obtain ⟨hN, hflag, hq, hh, hst, hrc, hcc, hpc0, hr0, hrep0, hmid, _⟩ := h
  exact ⟨hN, hflag, hq, hh, hst, hcc, Or.inl ⟨hpc0, hrc⟩, hr0, hrep0,
    fun j hj0 hjN => ⟨(hmid j hj0 hjN).1, (hmid j hj0 hjN).2.2⟩⟩

theorem failInv_run (ht : t0.refresh ≠ "")
    (hres : env.refreshResult 0 = .error e) (h : FailInv N t0 h0 e s) (sched : List Nat) :
    FailInv N t0 h0 e (run env s sched) :=
  run_preserve (FailInv N t0 h0 e) (fun _ i h1 => failInv_step ht hres h1 i) sched s h

end FailureCycle

section MissingRefresh

variable {env : Env} {N : Nat} {st0 : Option Tokens} {h0 : Option String} {s : Sys}

theorem missCore_step (hm : missingRefresh st0)
    (h : InvAll env s ∧ MissCore N st0 s) (i : Nat) :
    InvAll env (step env s i) ∧ MissCore N st0 (step env s i) := by
  refine ⟨invAll_step h.1 i, ?_⟩
  have hinv := h.1
  obtain ⟨hN, hst, hrc, hcc, hpcs⟩ := h.2
  by_cases hi : i < s.N
  swap
  · rw [step_oob hi]; exact ⟨hN, hst, hrc, hcc, hpcs⟩
  have hiN : i < N := hN ▸ hi
  rcases hpcs i hiN with hpc | hpc | hpc | hpc
  · have hr : (s.procs i).retry = false := (hinv.enteredFresh i hi hpc).1
    cases hf : s.g.isRefreshing with
    | true =>
      rw [step_entered_enqueue hi hpc hr hf]
      refine ⟨hN, hst, hrc, hcc, ?_⟩
      intro k hk
      dsimp only
      by_cases hki : k = i
      · subst hki
        rw [updProc_self]
        exact Or.inr (Or.inl rfl)
      · rw [updProc_ne hki]
        exact hpcs k hk
    | false =>
      rw [step_entered_start hi hpc hr hf]
      refine ⟨hN, hst, hrc, hcc, ?_⟩
      intro k hk
      dsimp only
      by_cases hki : k = i
      · subst hki
        rw [updProc_self]
        exact Or.inr (Or.inr (Or.inl rfl))
      · rw [updProc_ne hki]
        exact hpcs k hk
  · rw [step_waiting hi hpc]
    exact ⟨hN, hst, hrc, hcc, hpcs⟩
  · have hstep : step env s i =
        { s with g := { s.g with isRefreshing := false },
                 procs := updProc s.procs i { s.procs i with pc := .done .origUnauthorized } } := by
      rcases hm with hm | ⟨a, hm⟩
      · exact step_getting_none hi hpc (hst.trans hm)
      · exact step_getting_empty hi hpc (hst.trans hm) rfl
    rw [hstep]
    refine ⟨hN, hst, hrc, hcc, ?_⟩
    intro k hk
    dsimp only
    by_cases hki : k = i
    · subst hki
      rw [updProc_self]
      exact Or.inr (Or.inr (Or.inr rfl))
    · rw [updProc_ne hki]
      exact hpcs k hk
  · rw [step_done hi hpc]
    exact ⟨hN, hst, hrc, hcc, hpcs⟩

theorem missCore_run (hm : missingRefresh st0)
    (h : InvAll env s ∧ MissCore N st0 s) (sched : List Nat) :
    InvAll env (run env s sched) ∧ MissCore N st0 (run env s sched) :=
  run_preserve (fun s1 => InvAll env s1 ∧ MissCore N st0 s1)
    (fun _ i h1 => missCore_step hm h1 i) sched s h

theorem missCore_init : MissCore N st0 (initSys N st0 h0) :=
  ⟨rfl, rfl, rfl, rfl, fun _ _ => Or.inl rfl⟩

theorem miss_waiting_step (hm : missingRefresh st0)
    (h : InvAll env s ∧ MissCore N st0 s) {j : Nat} (hw : (s.procs j).pc = .waiting)
    (i : Nat) : ((step env s i).procs j).pc = .waiting := by
  have hinv := h.1
  obtain ⟨hN, hst, hrc, hcc, hpcs⟩ := h.2
  by_cases hi : i < s.N
  swap
  · rw [step_oob hi]; exact hw
  have hiN : i < N := hN ▸ hi
  have hji : j = i ∨ j ≠ i := by omega
  rcases hpcs i hiN with hpc | hpc | hpc | hpc
  · have hr : (s.procs i).retry = false := (hinv.enteredFresh i hi hpc).1
    have hjne : j ≠ i := by
      intro e1
      subst e1
      rw [hw] at hpc
      exact PC.noConfusion hpc
    cases hf : s.g.isRefreshing with
    | true =>
      rw [step_entered_enqueue hi hpc hr hf]
      dsimp only
      rw [updProc_ne hjne]
      exact hw
    | false =>
      rw [step_entered_start hi hpc hr hf]
      dsimp only
      rw [updProc_ne hjne]
      exact hw
  · rw [step_waiting hi hpc]
    exact hw
  · have hjne : j ≠ i := by
      intro e1
      subst e1
      rw [hw] at hpc
      exact PC.noConfusion hpc
    have hstep : step env s i =
        { s with g := { s.g with isRefreshing := false },
                 procs := updProc s.procs i { s.procs i with pc := .done .origUnauthorized } } := by
      rcases hm with hm | ⟨a, hm⟩
      · exact step_getting_none hi hpc (hst.trans hm)
      · exact step_getting_empty hi hpc (hst.trans hm) rfl
    rw [hstep]
    dsimp only
    rw [updProc_ne hjne]
    exact hw
  · rw [step_done hi hpc]
    exact hw

theorem miss_waiting_absorbing (hm : missingRefresh st0)
    (h : InvAll env s ∧ MissCore N st0 s) {j : Nat} (hw : (s.procs j).pc = .waiting) :
    ∀ sched, ((run env s sched).procs j).pc = .waiting := by
  intro sched
  induction sched generalizing s with
  | nil => exact hw
  | cons a t ih =>
    rw [run_cons]
    exact ih (missCore_step hm h a) (miss_waiting_step hm h hw a)

end MissingRefresh

section Claims

theorem runInit_N {env : Env} {N : Nat} {st0 : Option Tokens} {h0 : Option String}
    {sched : List Nat} : (run env (initSys N st0 h0) sched).N = N := by
  rw [run_N]
  rfl

theorem runConc_N {env : Env} {N : Nat} {st0 : Option Tokens} {h0 : Option String}
    {sched : List Nat} : (runConc env N st0 h0 sched).N = N := by
  rw [runConc, run_N]
  rfl

/-- C1 — Single-flight refresh.  (a) In every state reachable from any herd of
`N` 401-failed requests under any schedule, at most one process is parked on
the refresh POST, so at most one refresh call is outstanding at any time.
(b) A process that observes its 401 while `isRefreshing` is true appends a
pending record to `failedQueue`, moves to the waiting state, and issues no
refresh call.  (c) When all `N` (`N ≥ 2`) 401 observations happen before
anything else and a refresh credential is stored, the whole run makes at most
one call to the token-refresh endpoint — exactly one if the run completes. -/
theorem c1_single_flight :
    (∀ (env : Env) (N : Nat) (stored0 : Option Tokens) (h0 : Option String)
      (sched : List Nat) (i : Nat), i < N → ∀ j, j < N →
      ∀ t idx t' idx',
        ((run env (initSys N stored0 h0) sched).procs i).pc = .refreshing t idx →
        ((run env (initSys N stored0 h0) sched).procs j).pc = .refreshing t' idx' →
        i = j) ∧
    (∀ (env : Env) (N : Nat) (stored0 : Option Tokens) (h0 : Option String)
      (sched : List Nat) (i : Nat), i < N →
      (run env (initSys N stored0 h0) sched).g.isRefreshing = true →
      ((run env (initSys N stored0 h0) sched).procs i).pc = .entered →
      (step env (run env (initSys N stored0 h0) sched) i).g.failedQueue =
        (run env (initSys N stored0 h0) sched).g.failedQueue ++ [i] ∧
      ((step env (run env (initSys N stored0 h0) sched) i).procs i).pc = .waiting ∧
      (step env (run env (initSys N stored0 h0) sched) i).g.refreshCalls =
        (run env (initSys N stored0 h0) sched).g.refreshCalls) ∧
    (∀ (env : Env) (N : Nat) (t0 : Tokens) (h0 : Option String) (sched : List Nat),
      2 ≤ N → t0.refresh ≠ "" →
      (runConc env N (some t0) h0 sched).g.refreshCalls ≤ 1 ∧
      (allDone (runConc env N (some t0) h0 sched) →
        (runConc env N (some t0) h0 sched).g.refreshCalls = 1)) := by
  refine ⟨?_, ?_, ?_⟩
  · intro env N stored0 h0 sched i hi j hj t idx t' idx' hpci hpcj
    have hinv := invAll_run (@invAll_init env N stored0 h0) sched
    have hsN : (run env (initSys N stored0 h0) sched).N = N := runInit_N
    exact hinv.ownerUnique i (by omega) j (by omega) (by rw [hpci]; rfl) (by rw [hpcj]; rfl)
  · intro env N stored0 h0 sched i hi hflag hpc
    have hinv := invAll_run (@invAll_init env N stored0 h0) sched
    have hsN : (run env (initSys N stored0 h0) sched).N = N := runInit_N
    have hi' : i < (run env (initSys N stored0 h0) sched).N := by omega
    have hr := (hinv.enteredFresh i hi' hpc).1
    rw [step_entered_enqueue hi' hpc hr hflag]
    refine ⟨rfl, ?_, rfl⟩
    dsimp only
    rw [updProc_self]
  · intro env N t0 h0 sched hN ht
    have hone : OneInv N t0 (runConc env N (some t0) h0 sched) := by
      rw [runConc, run_append]
      exact oneInv_run ht
        (entryDone_oneInv (entry_done env N t0 h0 (by omega))) sched
    obtain ⟨hsN, hent, hretry, hdisj⟩ := hone
    constructor
    · rcases hdisj with ⟨hrc, _⟩ | ⟨hrc, _⟩ <;> omega
    · intro hdone
      rcases hdisj with ⟨hrc, hpc0, _, _⟩ | ⟨hrc, _⟩
      · exfalso
        have h0lt : 0 < (runConc env N (some t0) h0 sched).N := by omega
        have := hdone 0 h0lt
        rw [hpc0] at this
        simp [PC.isDone] at this
      · exact hrc

/-- C2 — Successful-refresh postcondition: after a completed concurrent run in
which the single refresh call returns a (nonempty) new access value, the store
holds the new access paired with the unchanged refresh value, the default
header is `Bearer <newAccess>`, and every caller — the first failing request
and every queued one — was replayed exactly once with `Bearer <newAccess>` in
its Authorization header and ended with the outcome its replayed response
yields. -/
theorem c2_refresh_success (env : Env) (N : Nat) (t0 : Tokens) (h0 : Option String)
    (na : String) (sched : List Nat)
    (hN : 2 ≤ N) (ht : t0.refresh ≠ "") (hna : na ≠ "")
    (hres : env.refreshResult 0 = .ok na)
    (hdone : allDone (runConc env N (some t0) h0 sched)) :
    (runConc env N (some t0) h0 sched).g.stored = some ⟨na, t0.refresh⟩ ∧
    (runConc env N (some t0) h0 sched).g.authHeader = some ("Bearer " ++ na) ∧
    ((runConc env N (some t0) h0 sched).procs 0).replays = ["Bearer " ++ na] ∧
    ((runConc env N (some t0) h0 sched).procs 0).pc = .done (outcomeOfReplay env 0) ∧
    ∀ j, 0 < j → j < N →
      ((runConc env N (some t0) h0 sched).procs j).replays = ["Bearer " ++ na] ∧
      ((runConc env N (some t0) h0 sched).procs j).pc = .done (outcomeOfReplay env j) := by
  have hsN : (runConc env N (some t0) h0 sched).N = N := runConc_N
  have hsucc : SuccInv env N t0 h0 na (runConc env N (some t0) h0 sched) := by
    rw [runConc, run_append]
    exact succInv_run ht hna hres
      (Or.inl (entryDone_succPre (entry_done env N t0 h0 (by omega)))) sched
  rcases hsucc with hpre | hpost
  · exfalso
    obtain ⟨_, _, _, _, _, _, hdisj, _, _, _⟩ := hpre
    have h0lt : 0 < (runConc env N (some t0) h0 sched).N := by omega
    have hd := hdone 0 h0lt
    rcases hdisj with ⟨hpc0, _⟩ | ⟨hpc0, _⟩ | ⟨hpc0, _⟩ <;> rw [hpc0] at hd <;>
      simp [PC.isDone] at hd
  · obtain ⟨_, _, _, hh, hst, _, _, _, hrep0, hpc0, hrest⟩ := hpost
    refine ⟨hst, hh, hrep0, ?_, ?_⟩
    · rcases hpc0 with hpc0 | hpc0
      · exfalso
        have h0lt : 0 < (runConc env N (some t0) h0 sched).N := by omega
        have hd := hdone 0 h0lt
        rw [hpc0] at hd
        simp [PC.isDone] at hd
      · exact hpc0
    · intro j hj0 hjN
      have hjlt : j < (runConc env N (some t0) h0 sched).N := by omega
      have hd := hdone j hjlt
      rcases hrest j hj0 hjN with ⟨hpcj, _⟩ | ⟨hpcj, _⟩ | ⟨hpcj, hrepj⟩
      · rw [hpcj] at hd
        simp [PC.isDone] at hd
      · rw [hpcj] at hd
        simp [PC.isDone] at hd
      · exact ⟨hrepj, hpcj⟩

/-- C3 — Refresh-failure fan-out: after a completed concurrent run in which
the single refresh call fails with error `e`, every queued caller and the
first failing caller end rejected with that same refresh error, stored
credentials are cleared (with exactly one `storage.clearTokens` call), and the
default authorization header is removed. -/
theorem c3_refresh_failure (env : Env) (N : Nat) (t0 : Tokens) (h0 : Option String)
    (e : String) (sched : List Nat)
    (hN : 2 ≤ N) (ht : t0.refresh ≠ "")
    (hres : env.refreshResult 0 = .error e)
    (hdone : allDone (runConc env N (some t0) h0 sched)) :
    (runConc env N (some t0) h0 sched).g.stored = none ∧
    (runConc env N (some t0) h0 sched).g.authHeader = none ∧
    (runConc env N (some t0) h0 sched).g.clearCalls = 1 ∧
    ((runConc env N (some t0) h0 sched).procs 0).pc = .done (.refreshFailed e) ∧
    ∀ j, 0 < j → j < N →
      ((runConc env N (some t0) h0 sched).procs j).pc = .done (.refreshFailed e) := by
  have hsN : (runConc env N (some t0) h0 sched).N = N := runConc_N
  have hfail : FailInv N t0 h0 e (runConc env N (some t0) h0 sched) := by
    rw [runConc, run_append]
    exact failInv_run ht hres
      (Or.inl (entryDone_failPre (entry_done env N t0 h0 (by omega)))) sched
  have h0lt : 0 < (runConc env N (some t0) h0 sched).N := by omega
  rcases hfail with hpre | hmid | hpost
  · exfalso
    obtain ⟨_, _, _, _, _, _, hdisj, _, _, _⟩ := hpre
    have hd := hdone 0 h0lt
    rcases hdisj with ⟨hpc0, _⟩ | ⟨hpc0, _⟩ <;> rw [hpc0] at hd <;> simp [PC.isDone] at hd
  · exfalso
    obtain ⟨_, _, _, _, _, _, _, hpc0, _, _⟩ := hmid
    have hd := hdone 0 h0lt
    rw [hpc0] at hd
    simp [PC.isDone] at hd
  · obtain ⟨_, _, _, hh, hst, _, hcc, hpc0, _, hrest⟩ := hpost
    refine ⟨hst, hh, hcc, hpc0, ?_⟩
    intro j hj0 hjN
    have hjlt : j < (runConc env N (some t0) h0 sched).N := by omega
    have hd := hdone j hjlt
    rcases hrest j hj0 hjN with ⟨hpcj | hpcj, _⟩
    · rw [hpcj] at hd
      simp [PC.isDone] at hd
    · exact hpcj

/-- C4 — One-shot retry: in every reachable state of any run, every request
has been replayed at most once; a request that has been replayed is only ever
at its replay, or finished with exactly the outcome its replayed response
yields — it never re-enters the refresh coordinator; in particular a replay
that comes back 401 ends the caller with that 401 as a terminal error. -/
theorem c4_one_shot_retry (env : Env) (N : Nat) (stored0 : Option Tokens)
    (h0 : Option String) (sched : List Nat) :
    (∀ i, i < N → ((run env (initSys N stored0 h0) sched).procs i).replays.length ≤ 1) ∧
    (∀ i, i < N → ((run env (initSys N stored0 h0) sched).procs i).replays ≠ [] →
      ((run env (initSys N stored0 h0) sched).procs i).pc = .replayingRaw ∨
      ((run env (initSys N stored0 h0) sched).procs i).pc = .replayingApi ∨
      ((run env (initSys N stored0 h0) sched).procs i).pc = .done (outcomeOfReplay env i)) ∧
    (∀ i, i < N → env.replayResult i = .err 401 →
      ((run env (initSys N stored0 h0) sched).procs i).replays ≠ [] →
      ∀ o, ((run env (initSys N stored0 h0) sched).procs i).pc = .done o →
        o = .httpError 401) := by
  have hinv := invAll_run (@invAll_init env N stored0 h0) sched
  have hsN : (run env (initSys N stored0 h0) sched).N = N := runInit_N
  refine ⟨?_, ?_, ?_⟩
  · intro i hi
    exact hinv.replayBound i (by omega)
  · intro i hi hne
    exact hinv.replayDone i (by omega) hne
  · intro i hi hres hne o hdo
    rcases hinv.replayDone i (by omega) hne with h1 | h1 | h1
    · exact PC.noConfusion (h1.symm.trans hdo)
    · exact PC.noConfusion (h1.symm.trans hdo)
    · injection h1.symm.trans hdo with h2
      rw [← h2]
      simp [outcomeOfReplay, hres]

/-- C5 — Missing refresh credential: when the stored pair is absent (or its
refresh value is the empty, falsy string), no run ever issues a call to the
token-refresh endpoint, every finished request failed with the original
unauthorized error (never a refresh error), and as soon as no process is
parked on the credential read, `isRefreshing` is back to `false`. -/
theorem c5_missing_refresh (env : Env) (N : Nat) (st0 : Option Tokens)
    (h0 : Option String) (sched : List Nat) (hm : missingRefresh st0) :
    (run env (initSys N st0 h0) sched).g.refreshCalls = 0 ∧
    (∀ i, i < N → ∀ o, ((run env (initSys N st0 h0) sched).procs i).pc = .done o →
      o = .origUnauthorized) ∧
    ((∀ i, i < N → ((run env (initSys N st0 h0) sched).procs i).pc ≠ .gettingTokens) →
      (run env (initSys N st0 h0) sched).g.isRefreshing = false) := by
  have hmc := missCore_run hm ⟨@invAll_init env N st0 h0, @missCore_init N st0 h0⟩ sched
  have hinv := hmc.1
  obtain ⟨hN', hst, hrc, hcc, hpcs⟩ := hmc.2
  have hsN : (run env (initSys N st0 h0) sched).N = N := runInit_N
  refine ⟨hrc, ?_, ?_⟩
  · intro i hi o hdo
    rcases hpcs i hi with h1 | h1 | h1 | h1
    · exact PC.noConfusion (hdo.symm.trans h1)
    · exact PC.noConfusion (hdo.symm.trans h1)
    · exact PC.noConfusion (hdo.symm.trans h1)
    · injection hdo.symm.trans h1 with h2
  · intro hng
    cases hf : (run env (initSys N st0 h0) sched).g.isRefreshing with
    | false => rfl
    | true =>
      exfalso
      obtain ⟨k, hk, hko⟩ := hinv.flagHasOwner hf
      have hkN : k < N := by omega
      rcases hpcs k hkN with h1 | h1 | h1 | h1
      · rw [h1] at hko
        simp [PC.isOwner] at hko
      · rw [h1] at hko
        simp [PC.isOwner] at hko
      · exact hng k hkN h1
      · rw [h1] at hko
        simp [PC.isOwner] at hko

/-- C7 — Flag reset on every exit path: in every reachable state of any run,
once no process is inside the owner section of the refresh cycle (success,
refresh failure, and the missing-credential early return all leave it),
`isRefreshing` is `false`; conversely a raised flag means a cycle is still in
progress; and from any reachable flag-down state, a process that still has to
observe its 401 acquires the flag and starts a fresh credential read. -/
theorem c7_flag_reset (env : Env) (N : Nat) (stored0 : Option Tokens)
    (h0 : Option String) (sched : List Nat) :
    ((∀ i, i < N → ((run env (initSys N stored0 h0) sched).procs i).pc.isOwner = false) →
      (run env (initSys N stored0 h0) sched).g.isRefreshing = false) ∧
    ((run env (initSys N stored0 h0) sched).g.isRefreshing = true →
      ∃ i, i < N ∧ ((run env (initSys N stored0 h0) sched).procs i).pc.isOwner = true) ∧
    (∀ i, i < N → (run env (initSys N stored0 h0) sched).g.isRefreshing = false →
      ((run env (initSys N stored0 h0) sched).procs i).pc = .entered →
      ((step env (run env (initSys N stored0 h0) sched) i).procs i).pc = .gettingTokens ∧
      (step env (run env (initSys N stored0 h0) sched) i).g.isRefreshing = true) := by
  have hinv := invAll_run (@invAll_init env N stored0 h0) sched
  have hsN : (run env (initSys N stored0 h0) sched).N = N := runInit_N
  refine ⟨?_, ?_, ?_⟩
  · intro hall
    cases hf : (run env (initSys N stored0 h0) sched).g.isRefreshing with
    | false => rfl
    | true =>
      exfalso
      obtain ⟨k, hk, hko⟩ := hinv.flagHasOwner hf
      rw [hall k (by omega)] at hko
      exact Bool.noConfusion hko
  · intro hf
    obtain ⟨k, hk, hko⟩ := hinv.flagHasOwner hf
    exact ⟨k, by omega, hko⟩
  · intro i hi hf hpc
    have hi' : i < (run env (initSys N stored0 h0) sched).N := by omega
    have hr := (hinv.enteredFresh i hi' hpc).1
    rw [step_entered_start hi' hpc hr hf]
    constructor
    · dsimp only
      rw [updProc_self]
    · rfl

/-- C10 — Queue leak on a missing refresh credential: with no stored refresh
value, every process of any run is only ever entering, parked on the queue,
reading credentials, or finished with the original unauthorized error — so a
queued caller is never resolved nor rejected; waiting callers stay recorded in
the never-released queue; and once a process is waiting, it remains waiting
under every continuation schedule: its promise never settles. -/
theorem c10_queue_leak (env : Env) (N : Nat) (st0 : Option Tokens) (h0 : Option String)
    (hm : missingRefresh st0) (sched sched' : List Nat) :
    (∀ i, i < N →
      (((run env (initSys N st0 h0) sched).procs i).pc = .entered ∨
        ((run env (initSys N st0 h0) sched).procs i).pc = .waiting ∨
        ((run env (initSys N st0 h0) sched).procs i).pc = .gettingTokens ∨
        ((run env (initSys N st0 h0) sched).procs i).pc = .done .origUnauthorized)) ∧
    (∀ j, j < N → ((run env (initSys N st0 h0) sched).procs j).pc = .waiting →
      j ∈ (run env (initSys N st0 h0) sched).g.failedQueue) ∧
    (∀ j, ((run env (initSys N st0 h0) sched).procs j).pc = .waiting →
      ((run env (run env (initSys N st0 h0) sched) sched').procs j).pc = .waiting) := by
  have hmc := missCore_run hm ⟨@invAll_init env N st0 h0, @missCore_init N st0 h0⟩ sched
  have hinv := hmc.1
  have hsN : (run env (initSys N st0 h0) sched).N = N := runInit_N
  refine ⟨hmc.2.2.2.2.2, ?_, ?_⟩
  · intro j hj hw
    exact (hinv.waitQueue j).2 ⟨by omega, hw⟩
  · intro j hw
    exact miss_waiting_absorbing hm hmc hw sched'

/-- C6 counterexample — the claim "marked as retried before its record is
enqueued" is false on the code: with two concurrent 401s, the second request
is observed while `isRefreshing` is true, is enqueued in `failedQueue`, and
its `_retry` marker is still `false` (only the `isRefreshing = false` branch
of the interceptor ever sets `_retry`). -/
theorem c6_marking_counterexample :
    (run envOk (initSys 2 (some tokOld) (some "Bearer old")) [0]).g.isRefreshing = true ∧
    ((run envOk (initSys 2 (some tokOld) (some "Bearer old")) [0, 1]).procs 1).pc = .waiting ∧
    1 ∈ (run envOk (initSys 2 (some tokOld) (some "Bearer old")) [0, 1]).g.failedQueue ∧
    ((run envOk (initSys 2 (some tokOld) (some "Bearer old")) [0, 1]).procs 1).retry
      = false := by
  decide

/-- C6 (amended) — A request whose 401 is observed while `isRefreshing` is
true is enqueued as a pending record WITHOUT being marked retried: the
enqueue branch appends it to `failedQueue`, parks it, leaves `_retry` at
`false`, and issues no refresh call; accordingly, in every reachable state,
queued processes are unretried (one-shot replay for them is instead ensured
because their replay bypasses the interceptor via bare `axios`). -/
theorem c6_enqueue_unmarked :
    (∀ (env : Env) (s : Sys) (i : Nat), i < s.N →
      s.g.isRefreshing = true → (s.procs i).pc = .entered → (s.procs i).retry = false →
      (step env s i).g.failedQueue = s.g.failedQueue ++ [i] ∧
      ((step env s i).procs i).pc = .waiting ∧
      ((step env s i).procs i).retry = false ∧
      (step env s i).g.refreshCalls = s.g.refreshCalls) ∧
    (∀ (env : Env) (N : Nat) (stored0 : Option Tokens) (h0 : Option String)
      (sched : List Nat) (j : Nat), j < N →
      ((run env (initSys N stored0 h0) sched).procs j).pc = .waiting →
      ((run env (initSys N stored0 h0) sched).procs j).retry = false) := by
  constructor
  · intro env s i hi hf hpc hr
    rw [step_entered_enqueue hi hpc hr hf]
    refine ⟨rfl, ?_, ?_, rfl⟩
    · dsimp only
      rw [updProc_self]
    · dsimp only
      rw [updProc_self]
      exact hr
  · intro env N stored0 h0 sched j hj hw
    have hinv := invAll_run (@invAll_init env N stored0 h0) sched
    have hsN : (run env (initSys N stored0 h0) sched).N = N := runInit_N
    exact hinv.waitNoRetry j (by omega) hw

/-- C8 counterexample — `setAuthToken` does not set the header for EVERY
access string: for the empty (falsy) string it deletes the default header
instead of setting `Authorization: Bearer `. -/
theorem c8_credential_counterexample :
    setAuthToken "" (some "Bearer old") = none ∧
    ¬ setAuthToken "" (some "Bearer old") = some ("Bearer " ++ "") := by
  decide

/-- C8 (amended) — Credential attachment: for every NONEMPTY access credential
string, `setAuthToken` sets the transport's default header to
`Bearer <access>` whatever its previous value was; the operation is a total
function (no return value, always succeeds).  For the empty string the code
deletes the header instead. -/
theorem c8_set_credential (token : String) (defaults : Option String) (h : token ≠ "") :
    setAuthToken token defaults = some ("Bearer " ++ token) := by
  simp [setAuthToken, h]

/-- C9 — Session bootstrap consistency: with a stored pair present, a failing
profile fetch ends in the fully logged-out state (no user, no tokens, no
default header, cleared storage) after exactly one fetch; with no stored pair,
the logged-out state is reached directly with no profile fetch. -/
theorem c9_bootstrap :
    (∀ (e : String) (tk : Tokens) (h0 : Option String),
      (loadUserFromStorage (.error e) (some tk) h0).user = none ∧
      (loadUserFromStorage (.error e) (some tk) h0).tokens = none ∧
      (loadUserFromStorage (.error e) (some tk) h0).authHeader = none ∧
      (loadUserFromStorage (.error e) (some tk) h0).stored = none ∧
      (loadUserFromStorage (.error e) (some tk) h0).profileFetches = 1 ∧
      (loadUserFromStorage (.error e) (some tk) h0).isLoading = false) ∧
    (∀ (pr : Except String String) (h0 : Option String),
      (loadUserFromStorage pr none h0).user = none ∧
      (loadUserFromStorage pr none h0).profileFetches = 0 ∧
      (loadUserFromStorage pr none h0).isLoading = false) := by
  constructor
  · intro e tk h0
    exact ⟨rfl, rfl, rfl, rfl, rfl, rfl⟩
  · intro pr h0
    exact ⟨rfl, rfl, rfl⟩

/-- Witness for C1 at a concrete two-request herd. -/
theorem c1_single_flight_witness :
    (0 : Nat) = 0 ∧
    ((step envOk (run envOk (initSys 2 (some tokOld) (some "Bearer old")) [0]) 1).procs 1).pc
      = .waiting ∧
    (runConc envOk 2 (some tokOld) (some "Bearer old") [0, 0, 0, 0, 1, 1]).g.refreshCalls
      = 1 := by
  refine ⟨?_, ?_, ?_⟩
  · exact c1_single_flight.1 envOk 2 (some tokOld) (some "Bearer old") [0, 1, 0] 0 (by decide)
      0 (by decide) tokOld 0 tokOld 0 (by decide) (by decide)
  · exact (c1_single_flight.2.1 envOk 2 (some tokOld) (some "Bearer old") [0] 1 (by decide)
      (by decide) (by decide)).2.1
  · exact (c1_single_flight.2.2 envOk 2 tokOld (some "Bearer old") [0, 0, 0, 0, 1, 1]
      (by decide) (by decide)).2 (by decide)

/-- Witness for C2 on the spec's success scenario with two requests. -/
theorem c2_refresh_success_witness :
    allDone (runConc envOk 2 (some tokOld) (some "Bearer old") [0, 0, 0, 0, 1, 1]) ∧
    (runConc envOk 2 (some tokOld) (some "Bearer old") [0, 0, 0, 0, 1, 1]).g.stored =
      some ⟨"new", tokOld.refresh⟩ ∧
    (runConc envOk 2 (some tokOld) (some "Bearer old") [0, 0, 0, 0, 1, 1]).g.authHeader =
      some ("Bearer " ++ "new") := by
  have h := c2_refresh_success envOk 2 tokOld (some "Bearer old") "new" [0, 0, 0, 0, 1, 1]
    (by decide) (by decide) (by decide) rfl (by decide)
  exact ⟨by decide, h.1, h.2.1⟩

/-- Witness for C3 on the spec's failure scenario with two requests. -/
theorem c3_refresh_failure_witness :
    allDone (runConc envBad 2 (some tokOld) (some "Bearer old") [0, 0, 0, 1]) ∧
    (runConc envBad 2 (some tokOld) (some "Bearer old") [0, 0, 0, 1]).g.stored = none ∧
    (runConc envBad 2 (some tokOld) (some "Bearer old") [0, 0, 0, 1]).g.clearCalls = 1 := by
  have h := c3_refresh_failure envBad 2 tokOld (some "Bearer old") "refresh400" [0, 0, 0, 1]
    (by decide) (by decide) rfl (by decide)
  exact ⟨by decide, h.1, h.2.2.1⟩

/-- Witness for C4 on a run whose replays all come back 401. -/
theorem c4_one_shot_retry_witness :
    ((run envAll401 (initSys 2 (some tokOld) (some "Bearer old"))
      [0, 1, 0, 0, 0, 0, 1, 1]).procs 0).replays ≠ [] ∧
    ((run envAll401 (initSys 2 (some tokOld) (some "Bearer old"))
      [0, 1, 0, 0, 0, 0, 1, 1]).procs 0).replays.length ≤ 1 ∧
    Outcome.httpError 401 = .httpError 401 := by
  have h := c4_one_shot_retry envAll401 2 (some tokOld) (some "Bearer old")
    [0, 1, 0, 0, 0, 0, 1, 1]
  exact ⟨by decide, h.1 0 (by decide),
    h.2.2 0 (by decide) rfl (by decide) (.httpError 401) (by decide)⟩

/-- Witness for C5 with an empty credential store. -/
theorem c5_missing_refresh_witness :
    (run envOk (initSys 2 none (some "Bearer old")) [0, 1, 0]).g.refreshCalls = 0 ∧
    Outcome.origUnauthorized = .origUnauthorized := by
  have h := c5_missing_refresh envOk 2 none (some "Bearer old") [0, 1, 0] (Or.inl rfl)
  exact ⟨h.1, h.2.1 0 (by decide) .origUnauthorized (by decide)⟩

/-- Witness for the amended C6 at a concrete enqueue. -/
theorem c6_enqueue_unmarked_witness :
    ((step envOk (run envOk (initSys 2 (some tokOld) (some "Bearer old")) [0]) 1).procs 1).retry
      = false ∧
    ((step envOk (run envOk (initSys 2 (some tokOld) (some "Bearer old")) [0]) 1).procs 1).pc
      = .waiting := by
  have h := c6_enqueue_unmarked.1 envOk
    (run envOk (initSys 2 (some tokOld) (some "Bearer old")) [0]) 1
    (by decide) (by decide) (by decide) (by decide)
  exact ⟨h.2.2.1, h.2.1⟩

/-- Witness for C7 on a completed cycle and on a fresh 401 afterwards. -/
theorem c7_flag_reset_witness :
    (run envOk (initSys 2 (some tokOld) (some "Bearer old"))
      [0, 1, 0, 0, 0, 0, 1, 1]).g.isRefreshing = false ∧
    ((step envOk (run envOk (initSys 2 (some tokOld) (some "Bearer old")) []) 0).procs 0).pc
      = .gettingTokens := by
  have h := c7_flag_reset envOk 2 (some tokOld) (some "Bearer old") [0, 1, 0, 0, 0, 0, 1, 1]
  have h2 := c7_flag_reset envOk 2 (some tokOld) (some "Bearer old") []
  exact ⟨h.1 (by decide), (h2.2.2 0 (by decide) (by decide) (by decide)).1⟩

/-- Witness for the amended C8. -/
theorem c8_set_credential_witness :
    ("abc" : String) ≠ "" ∧ setAuthToken "abc" none = some ("Bearer " ++ "abc") :=
  ⟨by decide, c8_set_credential "abc" none (by decide)⟩

/-- Witness for C10: the second caller is still parked after the first one
already failed, and stays parked under a further schedule. -/
theorem c10_queue_leak_witness :
    ((run envOk (initSys 2 none (some "Bearer old")) [0, 1, 0]).procs 1).pc = .waiting ∧
    1 ∈ (run envOk (initSys 2 none (some "Bearer old")) [0, 1, 0]).g.failedQueue ∧
    ((run envOk (run envOk (initSys 2 none (some "Bearer old")) [0, 1, 0])
      [0, 1, 1, 1]).procs 1).pc = .waiting := by
  have h := c10_queue_leak envOk 2 none (some "Bearer old") (Or.inl rfl) [0, 1, 0] [0, 1, 1, 1]
  exact ⟨by decide, h.2.1 1 (by decide) (by decide), h.2.2 1 (by decide)⟩

end Claims

end MovieApi
